import Mathlib

/-!
Verification development for the endpoint descriptor system and the signed
peer-document codec of the ucoin-python-api repository.

The embedding works over `Str := List Char`.  The per-variant grammars of
`duniterpy/api/endpoint.py` are anchored whole-line regular expressions built
from field patterns (`HOST_REGEX`, `IPV4_REGEX`, `IPV6_REGEX`, `WS2PID_REGEX`,
`PATH_REGEX`) that live in `duniterpy/constants.py`, a module that is not part
of the provided sources; those field patterns are modelled from the spec's
words (section 4.1).  Because every field pattern is a space-free token class
and the grammars separate fields by single literal spaces, each anchored regex
is equivalent to a token-aligned matcher over the space-split line; optional
groups are greedy with backtracking, which `matchOpt` reproduces exactly.
-/

/-- Character strings, embedded as lists of characters. -/
abbrev Str := List Char

/-- Code point of a character, as a natural number. -/
def cn (c : Char) : Nat := c.toNat

/-- Whitespace for Python `str.split()`: the characters CPython treats as
Unicode whitespace — U+0009-U+000D, U+001C-U+001F, the space, U+0085 (next
line), U+00A0 (no-break space), U+1680, U+2000-U+200A, U+2028, U+2029,
U+202F, U+205F and U+3000. -/
def isSpaceC (c : Char) : Bool :=
  (9 ≤ cn c && cn c ≤ 13) || (28 ≤ cn c && cn c ≤ 31) || cn c = 32 || cn c = 133 ||
    cn c = 160 || cn c = 5760 || (8192 ≤ cn c && cn c ≤ 8202) || cn c = 8232 ||
    cn c = 8233 || cn c = 8239 || cn c = 8287 || cn c = 12288

/-- ASCII decimal digit. -/
def isDigitC (c : Char) : Bool := 48 ≤ cn c && cn c ≤ 57

/-- ASCII lowercase letter. -/
def isLowerC (c : Char) : Bool := 97 ≤ cn c && cn c ≤ 122

/-- ASCII uppercase letter. -/
def isUpperC (c : Char) : Bool := 65 ≤ cn c && cn c ≤ 90

/-- ASCII hexadecimal letter, either case (a-f, A-F). -/
def isHexLetC (c : Char) : Bool :=
  (97 ≤ cn c && cn c ≤ 102) || (65 ≤ cn c && cn c ≤ 70)

/-- Characters allowed in a DNS-hostname-shaped token: lowercase letters,
digits, hyphen (45) and dot (46). -/
def hostCharB (c : Char) : Bool := isLowerC c || isDigitC c || cn c = 45 || cn c = 46

/-- Characters allowed in an IPv4 literal: digits and dot. -/
def ipv4CharB (c : Char) : Bool := isDigitC c || cn c = 46

/-- Characters allowed in an IPv6 literal: hex digits, colon (58) and dot
(46, for the embedded-IPv4 form). -/
def ipv6CharB (c : Char) : Bool := isDigitC c || isHexLetC c || cn c = 58 || cn c = 46

/-- Characters allowed in a URL-path-shaped token: letters, digits,
slash (47), hyphen (45), underscore (95) and dot (46). -/
def pathCharB (c : Char) : Bool :=
  isLowerC c || isUpperC c || isDigitC c || cn c = 47 || cn c = 45 || cn c = 95 || cn c = 46

/-- Characters of a base64-like signature blob: letters, digits,
plus (43), slash (47) and equals (61). -/
def b64CharB (c : Char) : Bool :=
  isLowerC c || isUpperC c || isDigitC c || cn c = 43 || cn c = 47 || cn c = 61

/-- Digit character for a digit value (0-9). -/
def charOfDigit : Nat → Char
  | 0 => '0' | 1 => '1' | 2 => '2' | 3 => '3' | 4 => '4'
  | 5 => '5' | 6 => '6' | 7 => '7' | 8 => '8' | _ => '9'

/-- Numeric value carried by a digit character. -/
def digitVal (c : Char) : Nat := cn c - 48

/-- Little-endian base-10 digits of a natural number, with explicit fuel so
that the definition is structurally recursive and kernel-computable. -/
def digitsAux : Nat → Nat → List Nat
  | 0, _ => []
  | fuel + 1, n => if n = 0 then [] else n % 10 :: digitsAux fuel (n / 10)

/-- Little-endian base-10 digits of a natural number. -/
def natDigits (n : Nat) : List Nat := digitsAux n n

/-- Decimal rendering of a natural number, empty for zero (zero is falsy in
Python and every renderer drops falsy fields before stringifying them). -/
def natChars (n : Nat) : Str := ((natDigits n).map charOfDigit).reverse

/-- The Python `str(n)` of a natural number. -/
def pyNatStr (n : Nat) : Str := if n = 0 then ['0'] else natChars n

/-- The Python `int(s)` of a string of decimal digits. -/
def charsToNat (cs : Str) : Nat := Nat.ofDigits 10 ((cs.map digitVal).reverse)

/-- Split a string at every occurrence of a separator character, keeping empty
segments, like Python `str.split(sep)` with an explicit separator. -/
def splitChar (sep : Char) : Str → List Str
  | [] => [[]]
  | c :: cs =>
    let r := splitChar sep cs
    if c = sep then [] :: r else (c :: r.headD []) :: r.tail

/-- Test whether `p` is an initial segment of `s`. -/
def leadsWith : Str → Str → Bool
  | [], _ => true
  | _ :: _, [] => false
  | c :: p, d :: s => c = d && leadsWith p s

/-- Accumulator loop of Python `str.split()` without arguments: split on runs
of whitespace and drop empty tokens. -/
def pySplitAux (cur : Str) : Str → List Str
  | [] => if cur = [] then [] else [cur.reverse]
  | c :: cs =>
    if isSpaceC c then
      if cur = [] then pySplitAux [] cs else cur.reverse :: pySplitAux [] cs
    else
      pySplitAux (c :: cur) cs

/-- The Python `str.split()` without arguments. -/
def pySplit (s : Str) : List Str := pySplitAux [] s

/-- Modelled from the spec: `HOST_REGEX`, "a DNS-hostname-shaped token" —
lowercase letters, digits, hyphens and dots, containing at least one letter
(the letter keeps hostname tokens apart from IPv4 literals; the spec's own
scenario requires the IPv4-shaped token `999.1.1.1` to fail the whole
`BASIC_MERKLED_API` grammar rather than be reclassified as a host). -/
def hostB (t : Str) : Bool := !t.isEmpty && t.all hostCharB && t.any isLowerC

/-- Helper for `ipv4B`: every dot-separated part is a nonempty digit string
whose value is at most 255. -/
def ipv4PartsOK (ps : List Str) : Bool :=
  ps.length = 4 && ps.all (fun p => !p.isEmpty && p.all isDigitC && charsToNat p ≤ 255)

/-- Modelled from the spec: `IPV4_REGEX`, "four dot-separated octets each
0-255". -/
def ipv4B (t : Str) : Bool :=
  t.all ipv4CharB && t.any (fun c => cn c = 46) && ipv4PartsOK (splitChar '.' t)

/-- A possibly empty hextet: at most four hex digits. -/
def hextetB (p : Str) : Bool :=
  p.length ≤ 4 && p.all (fun c => isDigitC c || isHexLetC c)

/-- Colon-separated groups of an IPv6 literal: every group is a hextet,
except that the final group may instead be an embedded IPv4 literal. -/
def ipv6GroupsOK : List Str → Bool
  | [] => true
  | [p] => hextetB p || ipv4B p
  | p :: ps => hextetB p && ipv6GroupsOK ps

/-- Modelled from the spec: `IPV6_REGEX`, "colon-separated hextets (including
the zero-compressed and embedded forms)" — at least one colon, only hex
digits, colons and dots, every colon-separated group at most four hex digits
(empty groups encode zero compression), with the final group allowed to be an
embedded IPv4 literal such as a mapped address. -/
def ipv6B (t : Str) : Bool :=
  t.any (fun c => cn c = 58) && t.all ipv6CharB && ipv6GroupsOK (splitChar ':' t)

/-- Decimal port token, `[0-9]+`. -/
def portB (t : Str) : Bool := !t.isEmpty && t.all isDigitC

/-- Modelled from the spec: `PATH_REGEX`, "a URL-path-shaped token". -/
def pathB (t : Str) : Bool := !t.isEmpty && t.all pathCharB

/-- Modelled from the spec: `WS2PID_REGEX`, "a fixed-width identifier token
specific to the mesh-peer variant" — eight lowercase hex digits. -/
def ws2pidB (t : Str) : Bool :=
  t.length = 8 && t.all (fun c => isDigitC c || (97 ≤ cn c && cn c ≤ 102))

/-- Modelled from the spec: the signature-line shape used by the peer-document
codec — signature lines are "base64-like signature blobs", one per line, a
nonempty run of base64-like characters. -/
def sigB (t : Str) : Bool := !t.isEmpty && t.all b64CharB

/-- A token free of any Python whitespace. -/
def noWS (t : Str) : Bool := t.all (fun c => !isSpaceC c)

/-- A line free of newline characters. -/
def noNL (t : Str) : Bool := t.all (fun c => cn c ≠ 10)

/-- The endpoint variants of `duniterpy/api/endpoint.py`: `BMAEndpoint`
(Basic), `SecuredBMAEndpoint` (SecuredBasic), `WS2PEndpoint` (MeshPeer), the
three Elasticsearch service endpoints, and `UnknownEndpoint`.  Address fields
of the BMA family are `Option Str` because the regex groups yield `None` when
absent; paths are normalized to the empty string by the parsers, as in the
source. -/
inductive Endpoint where
  | bma (server ipv4 ipv6 : Option Str) (port : Nat)
  | bmas (server ipv4 ipv6 : Option Str) (port : Nat) (path : Str)
  | ws2p (ws2pid server : Str) (port : Nat) (path : Str)
  | escore (server : Str) (port : Nat)
  | esuser (server : Str) (port : Nat)
  | essub (server : Str) (port : Nat)
  | unknown (api : Str) (properties : List Str)
deriving DecidableEq, Repr

/-- Parse failures.  `malformed` is the `MalformedDocumentError` the source
raises on a grammar mismatch (the spec's `MalformedEndpoint` /
`MalformedDocument`); `typeErr` is the uncaught `TypeError` that
`WS2PEndpoint.from_inline` raises when the regex matches with an absent port
group and `int(None)` is evaluated. -/
inductive PErr where
  | malformed
  | typeErr
deriving DecidableEq, Repr

deriving instance DecidableEq for Except

/-- The data fields of `ConnectionHandler` (the aiohttp session and proxy
arguments are transport-layer collaborators, out of scope).  `server` is an
`Option Str` because `BMAEndpoint.conn_handler` can pass its `ipv4` field
through even when that field is `None`. -/
structure ConnectionHandler where
  http_scheme : Str
  ws_scheme : Str
  server : Option Str
  port : Nat
  path : Str
deriving DecidableEq, Repr

def bmaT : Str := "BASIC_MERKLED_API".toList
def bmasT : Str := "BMAS".toList
def ws2pT : Str := "WS2P".toList
def escoreT : Str := "ES_CORE_API".toList
def esuserT : Str := "ES_USER_API".toList
def essubT : Str := "ES_SUBSCRIPTION_API".toList

/-- The keys of `MANAGED_API`, in dictionary insertion order. -/
def MANAGED_TAGS : List Str := [bmaT, bmasT, ws2pT, escoreT, esuserT, essubT]

/-- One token of rendered output per present (truthy) optional field. -/
def optTok : Option Str → List Str
  | none => []
  | some t => if t = [] then [] else [t]

/-- One token of rendered output for a truthy string field. -/
def strTok (t : Str) : List Str := if t = [] then [] else [t]

/-- One token of rendered output for a truthy port. -/
def natTok (n : Nat) : List Str := if n = 0 then [] else [natChars n]

/-- Concatenate tokens, each preceded by a single space. -/
def joinTok : List Str → Str
  | [] => []
  | t :: ts => ' ' :: (t ++ joinTok ts)

/-- Render `" ".join(tokens)`. -/
def interSp : List Str → Str
  | [] => []
  | [t] => t
  | t :: ts => t ++ ' ' :: interSp ts

/-- The renderer `Endpoint.inline` of each variant, exactly as rendered by the source:
`BMAEndpoint.inline` appends one `" field"` chunk per truthy field to the API
tag; the other variants emit `API + " " + " ".join(truthy fields)`;
`UnknownEndpoint.inline` appends one `" property"` chunk per property. -/
def Endpoint.inline : Endpoint → Str
  | .bma s v4 v6 p => bmaT ++ joinTok (optTok s ++ optTok v4 ++ optTok v6 ++ natTok p)
  | .bmas s v4 v6 p pa => bmasT ++ ' ' :: interSp (optTok s ++ optTok v4 ++ optTok v6 ++ natTok p ++ strTok pa)
  | .ws2p id srv p pa => ws2pT ++ ' ' :: interSp (strTok id ++ strTok srv ++ natTok p ++ strTok pa)
  | .escore srv p => escoreT ++ ' ' :: interSp (strTok srv ++ natTok p)
  | .esuser srv p => esuserT ++ ' ' :: interSp (strTok srv ++ natTok p)
  | .essub srv p => essubT ++ ' ' :: interSp (strTok srv ++ natTok p)
  | .unknown a ps => a ++ joinTok ps

/-- Greedy optional group over a token list: capture the head token when it
matches the class and the rest of the pattern succeeds on the remaining
tokens, otherwise backtrack and leave the group empty — exactly the regex
engine's behaviour for `(?: (CLASS))?` between space-separated groups. -/
def matchOpt {α : Type} (cl : Str → Bool) (next : List Str → Option α) (ts : List Str) :
    Option (Option Str × α) :=
  match ts with
  | t :: ts2 =>
    if cl t then
      match next ts2 with
      | some r => some (some t, r)
      | none =>
        match next ts with
        | some r => some (none, r)
        | none => none
    else
      match next ts with
      | some r => some (none, r)
      | none => none
  | [] =>
    match next [] with
    | some r => some (none, r)
    | none => none

/-- Required final port group `(?: ([0-9]+))$`. -/
def matchPort : List Str → Option Str
  | [p] => if portB p then some p else none
  | _ => none

/-- Required port group followed by an optional path group,
` ([0-9]+)(?: (PATH))?$`. -/
def matchPortPath : List Str → Option (Str × Option Str)
  | [p] => if portB p then some (p, none) else none
  | [p, q] => if portB p && pathB q then some (p, some q) else none
  | _ => none

/-- Token-aligned matcher for `BMAEndpoint.re_inline` after the tag. -/
def matchBMA : List Str → Option (Option Str × Option Str × Option Str × Str) :=
  matchOpt hostB (matchOpt ipv4B (matchOpt ipv6B matchPort))

/-- Token-aligned matcher for `SecuredBMAEndpoint.re_inline` after the tag. -/
def matchBMAS : List Str → Option (Option Str × Option Str × Option Str × Str × Option Str) :=
  matchOpt hostB (matchOpt ipv4B (matchOpt ipv6B matchPortPath))

/-- The parser `BMAEndpoint.from_inline`. -/
def bmaFromInline (line : Str) : Except PErr Endpoint :=
  match splitChar ' ' line with
  | tag :: ts =>
    if tag = bmaT then
      match matchBMA ts with
      | some (s, v4, v6, pt) => .ok (.bma s v4 v6 (charsToNat pt))
      | none => .error .malformed
    else .error .malformed
  | [] => .error .malformed

/-- The parser `SecuredBMAEndpoint.from_inline`; an absent path group becomes
the empty string. -/
def bmasFromInline (line : Str) : Except PErr Endpoint :=
  match splitChar ' ' line with
  | tag :: ts =>
    if tag = bmasT then
      match matchBMAS ts with
      | some (s, v4, v6, pt, pa) => .ok (.bmas s v4 v6 (charsToNat pt) (pa.getD []))
      | none => .error .malformed
    else .error .malformed
  | [] => .error .malformed

/-- The parser `WS2PEndpoint.from_inline`.  The port group of `WS2PEndpoint.re_inline` is
`([0-9]+)?` after a mandatory space, so a line with a trailing space (or a
double space before the path) matches with the port group absent, and
`int(m.group(3))` then raises an uncaught `TypeError`: an empty third token
models that branch. -/
def ws2pFromInline (line : Str) : Except PErr Endpoint :=
  match splitChar ' ' line with
  | tag :: ts =>
    if tag = ws2pT then
      match ts with
      | [id, h, pt] =>
        if ws2pidB id && (hostB h || ipv4B h) then
          if portB pt then .ok (.ws2p id h (charsToNat pt) [])
          else if pt = [] then .error .typeErr
          else .error .malformed
        else .error .malformed
      | [id, h, pt, pa] =>
        if ws2pidB id && (hostB h || ipv4B h) then
          if portB pt && pathB pa then .ok (.ws2p id h (charsToNat pt) pa)
          else if pt = [] && pathB pa then .error .typeErr
          else .error .malformed
        else .error .malformed
      | _ => .error .malformed
    else .error .malformed
  | [] => .error .malformed

/-- The parser `ESCoreEndpoint.from_inline`. -/
def escoreFromInline (line : Str) : Except PErr Endpoint :=
  match splitChar ' ' line with
  | tag :: ts =>
    if tag = escoreT then
      match ts with
      | [srv, pt] =>
        if (hostB srv || ipv4B srv) && portB pt then .ok (.escore srv (charsToNat pt))
        else .error .malformed
      | _ => .error .malformed
    else .error .malformed
  | [] => .error .malformed

/-- The parser `ESUserEndpoint.from_inline`. -/
def esuserFromInline (line : Str) : Except PErr Endpoint :=
  match splitChar ' ' line with
  | tag :: ts =>
    if tag = esuserT then
      match ts with
      | [srv, pt] =>
        if (hostB srv || ipv4B srv) && portB pt then .ok (.esuser srv (charsToNat pt))
        else .error .malformed
      | _ => .error .malformed
    else .error .malformed
  | [] => .error .malformed

/-- The parser `ESSubscribtionEndpoint.from_inline`. -/
def essubFromInline (line : Str) : Except PErr Endpoint :=
  match splitChar ' ' line with
  | tag :: ts =>
    if tag = essubT then
      match ts with
      | [srv, pt] =>
        if (hostB srv || ipv4B srv) && portB pt then .ok (.essub srv (charsToNat pt))
        else .error .malformed
      | _ => .error .malformed
    else .error .malformed
  | [] => .error .malformed

/-- The parser `UnknownEndpoint.from_inline`: whitespace-split the line; an empty token
list (`inline.split()[0]` raising `IndexError`) becomes
`MalformedDocumentError`. -/
def unknownFromInline (line : Str) : Except PErr Endpoint :=
  match pySplit line with
  | [] => .error .malformed
  | a :: ps => .ok (.unknown a ps)

/-- The `endpoint` factory on string input: try each managed API tag in
dictionary order with `value.startswith(api + " ")`, else fall back to
`UnknownEndpoint.from_inline`. -/
def endpointOf (line : Str) : Except PErr Endpoint :=
  if leadsWith (bmaT ++ [' ']) line then bmaFromInline line
  else if leadsWith (bmasT ++ [' ']) line then bmasFromInline line
  else if leadsWith (ws2pT ++ [' ']) line then ws2pFromInline line
  else if leadsWith (escoreT ++ [' ']) line then escoreFromInline line
  else if leadsWith (esuserT ++ [' ']) line then esuserFromInline line
  else if leadsWith (essubT ++ [' ']) line then essubFromInline line
  else unknownFromInline line

/-- The Python truthiness of an optional string field. -/
def truthyO : Option Str → Bool
  | none => false
  | some t => !t.isEmpty

/-- IPv6 literal in bracketed URL-authority form. -/
def bracket (v : Str) : Str := '[' :: (v ++ [']'])

/-- The method `conn_handler` of every variant.  `BMAEndpoint` uses the insecure scheme
pair and the server / bracketed-IPv6 / IPv4 priority; `SecuredBMAEndpoint`
does the same with the secure pair and its path; `WS2P` and the three ES
variants pass their single server field with the secure pair;
`UnknownEndpoint` returns `ConnectionHandler("", "", "", 0, "")`. -/
def connHandler : Endpoint → ConnectionHandler
  | .bma s v4 v6 p =>
    if truthyO s then ⟨"http".toList, "ws".toList, s, p, []⟩
    else if truthyO v6 then ⟨"http".toList, "ws".toList, some (bracket (v6.getD [])), p, []⟩
    else ⟨"http".toList, "ws".toList, v4, p, []⟩
  | .bmas s v4 v6 p pa =>
    if truthyO s then ⟨"https".toList, "wss".toList, s, p, pa⟩
    else if truthyO v6 then ⟨"https".toList, "wss".toList, some (bracket (v6.getD [])), p, pa⟩
    else ⟨"https".toList, "wss".toList, v4, p, pa⟩
  | .ws2p _ srv p pa => ⟨"https".toList, "wss".toList, some srv, p, pa⟩
  | .escore srv p => ⟨"https".toList, "wss".toList, some srv, p, []⟩
  | .esuser srv p => ⟨"https".toList, "wss".toList, some srv, p, []⟩
  | .essub srv p => ⟨"https".toList, "wss".toList, some srv, p, []⟩
  | .unknown _ _ => ⟨[], [], some [], 0, []⟩

/-- The `server`/`ipv4`/`ipv6`/`port` quadruple that `BMAEndpoint.__eq__`
compares, available exactly on the two classes that are `isinstance` of
`BMAEndpoint` (`SecuredBMAEndpoint` inherits `__eq__` and adds no `path`
comparison). -/
def bmaQuad : Endpoint → Option (Option Str × Option Str × Option Str × Nat)
  | .bma s v4 v6 p => some (s, v4, v6, p)
  | .bmas s v4 v6 p _ => some (s, v4, v6, p)
  | _ => none

/-- The Python `==` on endpoints: each variant's `__eq__` checks `isinstance` of
its own class and compares its fields; `SecuredBMAEndpoint` has no `__eq__` of
its own and uses the inherited `BMAEndpoint.__eq__`. -/
def pyEq : Endpoint → Endpoint → Bool
  | .bma s v4 v6 p, o => decide (bmaQuad o = some (s, v4, v6, p))
  | .bmas s v4 v6 p _, o => decide (bmaQuad o = some (s, v4, v6, p))
  | .ws2p id srv p pa, .ws2p id2 srv2 p2 pa2 =>
    decide (srv = srv2) && decide (id = id2) && decide (p = p2) && decide (pa = pa2)
  | .ws2p _ _ _ _, _ => false
  | .escore srv p, .escore srv2 p2 => decide (srv = srv2) && decide (p = p2)
  | .escore _ _, _ => false
  | .esuser srv p, .esuser srv2 p2 => decide (srv = srv2) && decide (p = p2)
  | .esuser _ _, _ => false
  | .essub srv p, .essub srv2 p2 => decide (srv = srv2) && decide (p = p2)
  | .essub _ _, _ => false
  | .unknown a ps, .unknown a2 ps2 => decide (a = a2) && decide (ps = ps2)
  | .unknown _ _, _ => false

/-- Constructor discriminant, used to state which values belong to different
variants. -/
def variantIdx : Endpoint → Nat
  | .bma _ _ _ _ => 0
  | .bmas _ _ _ _ _ => 1
  | .ws2p _ _ _ _ => 2
  | .escore _ _ => 3
  | .esuser _ _ => 4
  | .essub _ _ => 5
  | .unknown _ _ => 6

/-- API tag of a known variant, none for the unknown fallback. -/
def variantTag : Endpoint → Option Str
  | .bma _ _ _ _ => some bmaT
  | .bmas _ _ _ _ _ => some bmasT
  | .ws2p _ _ _ _ => some ws2pT
  | .escore _ _ => some escoreT
  | .esuser _ _ => some esuserT
  | .essub _ _ => some essubT
  | .unknown _ _ => none

/-- A present optional field is nonempty (truthy) and matches its grammar. -/
def optWfB (cl : Str → Bool) : Option Str → Bool
  | none => true
  | some t => !t.isEmpty && cl t

/-- Fields well-formed for their variant: present optional address fields are
nonempty and match their field grammar, ports are nonzero (Python renders a
falsy port as absent), paths are empty or grammar-shaped, and an unknown
endpoint carries a nonempty whitespace-free tag that is not a managed API tag
together with nonempty whitespace-free properties. -/
def wfE : Endpoint → Bool
  | .bma s v4 v6 p =>
    optWfB hostB s && optWfB ipv4B v4 && optWfB ipv6B v6 && (p != 0)
  | .bmas s v4 v6 p pa =>
    optWfB hostB s && optWfB ipv4B v4 && optWfB ipv6B v6 && (p != 0) && (pa.isEmpty || pathB pa)
  | .ws2p id srv p pa =>
    ws2pidB id && (hostB srv || ipv4B srv) && (p != 0) && (pa.isEmpty || pathB pa)
  | .escore srv p => (hostB srv || ipv4B srv) && (p != 0)
  | .esuser srv p => (hostB srv || ipv4B srv) && (p != 0)
  | .essub srv p => (hostB srv || ipv4B srv) && (p != 0)
  | .unknown a ps =>
    !a.isEmpty && noWS a && !(decide (a ∈ MANAGED_TAGS)) && ps.all fun t => !t.isEmpty && noWS t

/-- Token list contributed by an optional field that is known nonempty. -/
def optL : Option Str → List Str
  | none => []
  | some t => [t]

/-- The signed peer document: fixed header fields, the endpoint list in
source order, and the trailing signature lines in source order. -/
structure PeerDoc where
  version : Nat
  currency : Str
  pubkey : Str
  blockid : Str
  endpoints : List Endpoint
  signatures : List Str
deriving DecidableEq, Repr

def verLab : Str := "Version: ".toList
def typeLine : Str := "Type: Peer".toList
def curLab : Str := "Currency: ".toList
def pkLab : Str := "PublicKey: ".toList
def blkLab : Str := "Block: ".toList
def epMark : Str := "Endpoints:".toList

/-- Strip a required leading label from a header line. -/
def dropLabel (lab l : Str) : Option Str :=
  if leadsWith lab l then some (l.drop lab.length) else none

/-- Map a fallible function over a list, propagating the first error. -/
def mapExcept {α β ε : Type} (f : α → Except ε β) : List α → Except ε (List β)
  | [] => .ok []
  | a :: as =>
    match f a with
    | .ok b =>
      match mapExcept f as with
      | .ok bs => .ok (b :: bs)
      | .error e2 => .error e2
    | .error e2 => .error e2

/-- Concatenate lines, terminating every line (including the last) with the
separator. -/
def linesJoin (sep : Char) : List Str → Str
  | [] => []
  | l :: ls => l ++ sep :: linesJoin sep ls

/-- Modelled from the spec: the body of the peer document after the
`Endpoints:` marker (the codec `Peer.from_signed_raw` lives in
`ucoinpy/documents/peer.py`, which is not among the provided sources).  Lines
are consumed as endpoint lines through the registry until the first
signature-shaped line; every remaining line must be signature-shaped, and the
raw-parse step tolerates zero signatures. -/
def parseBody2 (body : List Str) : Except PErr (List Endpoint × List Str) :=
  match mapExcept endpointOf (body.takeWhile fun l => !sigB l) with
  | .ok eps =>
    if (body.dropWhile fun l => !sigB l).all sigB then
      .ok (eps, body.dropWhile fun l => !sigB l)
    else .error .malformed
  | .error e2 => .error e2

/-- Modelled from the spec: the lines after the six header lines; the
required trailing newline makes the final split segment empty. -/
def parseBody (rest : List Str) : Except PErr (List Endpoint × List Str) :=
  match rest.reverse with
  | [] :: bodyRev => parseBody2 bodyRev.reverse
  | _ => .error .malformed

/-- Modelled from the spec: check the literal header tokens, convert the
version digits, and assemble the document from the parsed body. -/
def parseAfterHeader (vs cur pk blk l2 l6 : Str) (rest : List Str) : Except PErr PeerDoc :=
  if l2 = typeLine ∧ l6 = epMark ∧ portB vs = true then
    match parseBody rest with
    | .ok (eps, sigs) => .ok ⟨charsToNat vs, cur, pk, blk, eps, sigs⟩
    | .error e2 => .error e2
  else .error .malformed

/-- Modelled from the spec: the fixed header block — labeled lines
`Version:`, `Type: Peer`, `Currency:`, `PublicKey:`, `Block:` in that order,
then the literal `Endpoints:` marker — followed by the body. -/
def parseLines : List Str → Except PErr PeerDoc
  | l1 :: l2 :: l3 :: l4 :: l5 :: l6 :: rest =>
    match dropLabel verLab l1, dropLabel curLab l3, dropLabel pkLab l4, dropLabel blkLab l5 with
    | some vs, some cur, some pk, some blk => parseAfterHeader vs cur pk blk l2 l6 rest
    | _, _, _, _ => .error .malformed
  | _ => .error .malformed

/-- Modelled from the spec: `Peer.from_signed_raw` — split the raw text at
newlines and parse the resulting lines. -/
def parseSigned (raw : Str) : Except PErr PeerDoc :=
  parseLines (splitChar '\n' raw)

/-- Modelled from the spec: `Peer.signed_raw` — emit the header lines in
fixed order, the `Endpoints:` marker, each endpoint's inline rendering in
original order, then each signature in original order, every line
newline-terminated. -/
def renderSigned (d : PeerDoc) : Str :=
  linesJoin '\n'
    ([verLab ++ pyNatStr d.version, typeLine, curLab ++ d.currency, pkLab ++ d.pubkey,
      blkLab ++ d.blockid, epMark] ++ d.endpoints.map Endpoint.inline ++ d.signatures)

def sampleRaw : Str :=
  ("Version: 1\nType: Peer\nCurrency: beta_brousouf\n"
    ++ "PublicKey: HsLShAtzXTVxeUtQd7yi5Z5Zh4zNvbu8sTEZ53nfKcqY\n"
    ++ "Block: 8-1922C324ABC4AF7EF7656734A31F5197888DDD52\n"
    ++ "Endpoints:\n"
    ++ "BASIC_MERKLED_API some.dns.name 88.77.66.55 2001:0db8:0000:85a3:0000:0000:ac1f 9001\n"
    ++ "BASIC_MERKLED_API some.dns.name 88.77.66.55 2001:0db8:0000:85a3:0000:0000:ac1f 9002\n"
    ++ "OTHER_PROTOCOL 88.77.66.55 9001\n"
    ++ "dkaXIiCYUJtCg8Feh/BKvPYf4uFH9CJ/zY6J4MlA9BsjmcMe4YAblvNt/gJy31b1aGq3ue3h14mLMCu84rraDg==\n").toList

def sampleDoc : PeerDoc :=
  ⟨1, "beta_brousouf".toList,
    "HsLShAtzXTVxeUtQd7yi5Z5Zh4zNvbu8sTEZ53nfKcqY".toList,
    "8-1922C324ABC4AF7EF7656734A31F5197888DDD52".toList,
    [.bma (some "some.dns.name".toList) (some "88.77.66.55".toList)
        (some "2001:0db8:0000:85a3:0000:0000:ac1f".toList) 9001,
      .bma (some "some.dns.name".toList) (some "88.77.66.55".toList)
        (some "2001:0db8:0000:85a3:0000:0000:ac1f".toList) 9002,
      .unknown "OTHER_PROTOCOL".toList ["88.77.66.55".toList, "9001".toList]],
    ["dkaXIiCYUJtCg8Feh/BKvPYf4uFH9CJ/zY6J4MlA9BsjmcMe4YAblvNt/gJy31b1aGq3ue3h14mLMCu84rraDg==".toList]⟩

example : hostB "some.dns.name".toList = true := by decide
example : hostB "999.1.1.1".toList = false := by decide
example : ipv4B "88.77.66.55".toList = true := by decide
example : ipv4B "999.1.1.1".toList = false := by decide
example : ipv6B "2001:0db8:0000:85a3:0000:0000:ac1f".toList = true := by decide
example : ipv6B "::ffff:1.2.3.4".toList = true := by decide
example : ipv6B "1.2.3.4".toList = false := by decide
example : pySplit "\x1C".toList = [] := by decide
example : pySplit "WS2P\x1Cx".toList = ["WS2P".toList, "x".toList] := by decide
example : pySplit "a\u00A0b".toList = ["a".toList, "b".toList] := by decide
example : endpointOf "\x1C".toList = .error .malformed := by decide
example : noWS "x\x1Cy".toList = false := by decide
example : splitChar ' ' "a bc  d".toList = ["a".toList, "bc".toList, [], "d".toList] := by decide
example : pySplit "  a bc  d ".toList = ["a".toList, "bc".toList, "d".toList] := by decide
example : leadsWith "ab".toList "abc".toList = true := by decide
example : charsToNat "9001".toList = 9001 := by decide
example : natChars 9001 = "9001".toList := by decide

example : endpointOf "BASIC_MERKLED_API some.dns.name 88.77.66.55 2001:0db8:0000:85a3:0000:0000:ac1f 9001".toList
    = .ok (.bma (some "some.dns.name".toList) (some "88.77.66.55".toList)
        (some "2001:0db8:0000:85a3:0000:0000:ac1f".toList) 9001) := by decide
example : endpointOf "BASIC_MERKLED_API 999.1.1.1 9001".toList = .error .malformed := by decide
example : endpointOf "OTHER_PROTOCOL 88.77.66.55 9001".toList
    = .ok (.unknown "OTHER_PROTOCOL".toList ["88.77.66.55".toList, "9001".toList]) := by decide
example : endpointOf "WS2P".toList = .ok (.unknown "WS2P".toList []) := by decide
example : endpointOf " ".toList = .error .malformed := by decide
example : endpointOf "BMAS gtest.net 443 /bma".toList
    = .ok (.bmas (some "gtest.net".toList) none none 443 "/bma".toList) := by decide
example : endpointOf "WS2P abcdef12 gtest.net 443 /ws2p".toList
    = .ok (.ws2p "abcdef12".toList "gtest.net".toList 443 "/ws2p".toList) := by decide
example : endpointOf "ES_CORE_API gtest.net 443".toList
    = .ok (.escore "gtest.net".toList 443) := by decide
example : Endpoint.inline (.bma none none none 0) = bmaT := by decide
example : endpointOf (Endpoint.inline (.bma (some "a.b".toList) none none 10))
    = .ok (.bma (some "a.b".toList) none none 10) := by decide
example : endpointOf (Endpoint.inline (.bma none (some "1.2.3.4".toList) none 10))
    = .ok (.bma none (some "1.2.3.4".toList) none 10) := by decide

theorem natDigits_eq_digits : ∀ fuel n, n ≤ fuel → digitsAux fuel n = Nat.digits 10 n := by
  intro fuel
  induction fuel with
  | zero =>
    intro n hn
    interval_cases n
    simp [digitsAux]
  | succ f ih =>
    intro n hn
    by_cases h0 : n = 0
    · subst h0; simp [digitsAux]
    · have hdiv : n / 10 ≤ f := by
        have : n / 10 < n := Nat.div_lt_self (Nat.pos_of_ne_zero h0) (by norm_num)
        omega
      rw [digitsAux, if_neg h0, ih (n / 10) hdiv,
        ← Nat.digits_def' (by norm_num : 1 < 10) (Nat.pos_of_ne_zero h0)]

theorem natDigits_eq (n : Nat) : natDigits n = Nat.digits 10 n := by
  unfold natDigits
  exact natDigits_eq_digits n n le_rfl

theorem digitVal_charOfDigit (d : Nat) (h : d < 10) : digitVal (charOfDigit d) = d := by
  interval_cases d <;> decide

theorem isDigitC_charOfDigit (d : Nat) (h : d < 10) : isDigitC (charOfDigit d) = true := by
  interval_cases d <;> decide

theorem charsToNat_natChars (n : Nat) : charsToNat (natChars n) = n := by
  unfold charsToNat natChars
  rw [natDigits_eq n, List.map_reverse, List.reverse_reverse, List.map_map]
  have hcongr : (Nat.digits 10 n).map (digitVal ∘ charOfDigit) = (Nat.digits 10 n).map id := by
    apply List.map_congr_left
    intro d hd
    exact digitVal_charOfDigit d (Nat.digits_lt_base (by norm_num) hd)
  rw [hcongr, List.map_id, Nat.ofDigits_digits]

theorem charsToNat_pyNatStr (n : Nat) : charsToNat (pyNatStr n) = n := by
  unfold pyNatStr
  by_cases h : n = 0
  · subst h; decide
  · rw [if_neg h, charsToNat_natChars]

theorem natChars_all_digit (n : Nat) : (natChars n).all isDigitC = true := by
  rw [List.all_eq_true]
  intro c hc
  unfold natChars at hc
  rw [List.mem_reverse, List.mem_map] at hc
  obtain ⟨d, hd, rfl⟩ := hc
  rw [natDigits_eq n] at hd
  exact isDigitC_charOfDigit d (Nat.digits_lt_base (by norm_num) hd)

theorem natChars_ne_nil (n : Nat) (h : n ≠ 0) : natChars n ≠ [] := by
  unfold natChars
  have h1 : natDigits n ≠ [] := by
    rw [natDigits_eq n]
    exact Nat.digits_ne_nil_iff_ne_zero.mpr h
  simp [h1]

theorem portB_natChars (n : Nat) (h : n ≠ 0) : portB (natChars n) = true := by
  unfold portB
  rw [natChars_all_digit]
  simp [List.isEmpty_iff, natChars_ne_nil n h]

theorem pyNatStr_all_digit (n : Nat) : (pyNatStr n).all isDigitC = true := by
  unfold pyNatStr
  by_cases h : n = 0
  · subst h; decide
  · rw [if_neg h]; exact natChars_all_digit n

theorem all_mono {p q : Char → Bool} (h : ∀ c, p c = true → q c = true) (t : Str)
    (ht : t.all p = true) : t.all q = true := by
  rw [List.all_eq_true] at *
  intro c hc
  exact h c (ht c hc)

theorem hostChar_not_space (c : Char) (h : hostCharB c = true) : (!isSpaceC c) = true := by
  simp [hostCharB, isLowerC, isDigitC, isSpaceC] at *
  omega

theorem ipv4Char_not_space (c : Char) (h : ipv4CharB c = true) : (!isSpaceC c) = true := by
  simp [ipv4CharB, isDigitC, isSpaceC] at *
  omega

theorem ipv6Char_not_space (c : Char) (h : ipv6CharB c = true) : (!isSpaceC c) = true := by
  simp [ipv6CharB, isDigitC, isHexLetC, isSpaceC] at *
  omega

theorem pathChar_not_space (c : Char) (h : pathCharB c = true) : (!isSpaceC c) = true := by
  simp [pathCharB, isLowerC, isUpperC, isDigitC, isSpaceC] at *
  omega

theorem b64Char_not_space (c : Char) (h : b64CharB c = true) : (!isSpaceC c) = true := by
  simp [b64CharB, isLowerC, isUpperC, isDigitC, isSpaceC] at *
  omega

theorem digit_not_space (c : Char) (h : isDigitC c = true) : (!isSpaceC c) = true := by
  simp [isDigitC, isSpaceC] at *
  omega

theorem hostB_noWS (t : Str) (h : hostB t = true) : noWS t = true := by
  simp only [hostB, Bool.and_eq_true] at h
  exact all_mono hostChar_not_space t h.1.2

theorem ipv4B_noWS (t : Str) (h : ipv4B t = true) : noWS t = true := by
  simp only [ipv4B, Bool.and_eq_true] at h
  exact all_mono ipv4Char_not_space t h.1.1

theorem ipv6B_noWS (t : Str) (h : ipv6B t = true) : noWS t = true := by
  simp only [ipv6B, Bool.and_eq_true] at h
  exact all_mono ipv6Char_not_space t h.1.2

theorem portB_noWS (t : Str) (h : portB t = true) : noWS t = true := by
  simp only [portB, Bool.and_eq_true] at h
  exact all_mono digit_not_space t h.2

theorem pathB_noWS (t : Str) (h : pathB t = true) : noWS t = true := by
  simp only [pathB, Bool.and_eq_true] at h
  exact all_mono pathChar_not_space t h.2

theorem ws2pidB_noWS (t : Str) (h : ws2pidB t = true) : noWS t = true := by
  simp only [ws2pidB, Bool.and_eq_true] at h
  refine all_mono ?_ t h.2
  intro c hc
  simp [isDigitC, isSpaceC] at *
  omega

theorem sigB_noWS (t : Str) (h : sigB t = true) : noWS t = true := by
  simp only [sigB, Bool.and_eq_true] at h
  exact all_mono b64Char_not_space t h.2

theorem noWS_noNL (t : Str) (h : noWS t = true) : noNL t = true := by
  refine all_mono ?_ t h
  intro c hc
  simp [isSpaceC] at *
  omega

theorem noWS_not_mem (t : Str) (h : noWS t = true) (c : Char) (hc : isSpaceC c = true) :
    c ∉ t := by
  intro hmem
  rw [noWS, List.all_eq_true] at h
  have := h c hmem
  simp [hc] at this

theorem noWS_space_not_mem (t : Str) (h : noWS t = true) : ' ' ∉ t :=
  noWS_not_mem t h ' ' (by decide)

theorem noWS_nl_not_mem (t : Str) (h : noWS t = true) : '\n' ∉ t :=
  noWS_not_mem t h '\n' (by decide)

theorem ipv4_not_host (t : Str) (h : ipv4B t = true) : hostB t = false := by
  simp only [ipv4B, Bool.and_eq_true] at h
  have hany : t.any isLowerC = false := by
    rw [List.any_eq_false]
    intro c hc
    have := (List.all_eq_true.mp h.1.1) c hc
    simp [ipv4CharB, isDigitC, isLowerC] at *
    omega
  simp [hostB, hany]

theorem ipv6_not_host (t : Str) (h : ipv6B t = true) : hostB t = false := by
  simp only [ipv6B, Bool.and_eq_true] at h
  obtain ⟨c, hc, hcol⟩ := List.any_eq_true.mp h.1.1
  have hall : t.all hostCharB = false := by
    rw [List.all_eq_false]
    refine ⟨c, hc, ?_⟩
    simp [hostCharB, isLowerC, isDigitC] at *
    omega
  simp [hostB, hall]

theorem ipv6_not_ipv4 (t : Str) (h : ipv6B t = true) : ipv4B t = false := by
  simp only [ipv6B, Bool.and_eq_true] at h
  obtain ⟨c, hc, hcol⟩ := List.any_eq_true.mp h.1.1
  have hall : t.all ipv4CharB = false := by
    rw [List.all_eq_false]
    refine ⟨c, hc, ?_⟩
    simp [ipv4CharB, isDigitC] at *
    omega
  simp [ipv4B, hall]

theorem port_not_host (t : Str) (h : portB t = true) : hostB t = false := by
  simp only [portB, Bool.and_eq_true] at h
  have hany : t.any isLowerC = false := by
    rw [List.any_eq_false]
    intro c hc
    have := (List.all_eq_true.mp h.2) c hc
    simp [isDigitC, isLowerC] at *
    omega
  simp [hostB, hany]

theorem port_not_ipv4 (t : Str) (h : portB t = true) : ipv4B t = false := by
  simp only [portB, Bool.and_eq_true] at h
  have hany : (t.any fun c => cn c = 46) = false := by
    rw [List.any_eq_false]
    intro c hc
    have := (List.all_eq_true.mp h.2) c hc
    simp [isDigitC] at *
    omega
  simp [ipv4B, hany]

theorem port_not_ipv6 (t : Str) (h : portB t = true) : ipv6B t = false := by
  simp only [portB, Bool.and_eq_true] at h
  have hany : (t.any fun c => cn c = 58) = false := by
    rw [List.any_eq_false]
    intro c hc
    have := (List.all_eq_true.mp h.2) c hc
    simp [isDigitC] at *
    omega
  simp [ipv6B, hany]

theorem splitChar_ne_nil (sep : Char) (s : Str) : splitChar sep s ≠ [] := by
  cases s with
  | nil => simp [splitChar]
  | cons c cs =>
    simp only [splitChar]
    by_cases h : c = sep <;> simp [h]

theorem splitChar_nosep (sep : Char) (s : Str) (h : sep ∉ s) : splitChar sep s = [s] := by
  induction s with
  | nil => rfl
  | cons c cs ih =>
    have hc : ¬ c = sep := by
      intro hh
      exact h (hh ▸ List.mem_cons_self c cs)
    have hcs : sep ∉ cs := fun hm => h (List.mem_cons_of_mem c hm)
    simp only [splitChar, if_neg hc, ih hcs]
    rfl

theorem splitChar_append (sep : Char) (a r : Str) (h : sep ∉ a) :
    splitChar sep (a ++ sep :: r) = a :: splitChar sep r := by
  induction a with
  | nil => simp [splitChar]
  | cons c cs ih =>
    have hc : ¬ c = sep := by
      intro hh
      exact h (hh ▸ List.mem_cons_self c cs)
    have hcs : sep ∉ cs := fun hm => h (List.mem_cons_of_mem c hm)
    simp only [List.cons_append, splitChar, List.append_eq, if_neg hc, ih hcs]
    simp

theorem splitChar_mem_not_sep (sep : Char) (s p : Str) (hp : p ∈ splitChar sep s) :
    sep ∉ p := by
  induction s generalizing p with
  | nil =>
    simp [splitChar] at hp
    subst hp
    simp
  | cons c cs ih =>
    simp only [splitChar] at hp
    by_cases h : c = sep
    · rw [if_pos h] at hp
      rcases List.mem_cons.mp hp with h1 | h1
      · subst h1; simp
      · exact ih p h1
    · rw [if_neg h] at hp
      rcases List.mem_cons.mp hp with h1 | h1
      · subst h1
        intro hmem
        rcases List.mem_cons.mp hmem with h2 | h2
        · exact h h2.symm
        · obtain ⟨hd, htl⟩ := List.exists_cons_of_ne_nil (splitChar_ne_nil sep cs)
          obtain ⟨tl, hhd⟩ := htl
          rw [hhd] at h2
          simp at h2
          exact ih hd (by rw [hhd]; exact List.mem_cons_self hd tl) h2
      · have : p ∈ splitChar sep cs := by
          obtain ⟨hd, tl, hhd⟩ := List.exists_cons_of_ne_nil (splitChar_ne_nil sep cs)
          rw [hhd] at h1 ⊢
          simp at h1
          exact List.mem_cons_of_mem hd h1
        exact ih p this

theorem joinTok_split (ts : List Str) (tag : Str) (htag : ' ' ∉ tag)
    (hts : ∀ t ∈ ts, ' ' ∉ t) : splitChar ' ' (tag ++ joinTok ts) = tag :: ts := by
  induction ts generalizing tag with
  | nil =>
    simp only [joinTok, List.append_nil]
    exact splitChar_nosep ' ' tag htag
  | cons t ts ih =>
    simp only [joinTok]
    have : tag ++ ' ' :: (t ++ joinTok ts) = tag ++ ' ' :: (t ++ joinTok ts) := rfl
    rw [show tag ++ (' ' :: (t ++ joinTok ts)) = tag ++ ' ' :: (t ++ joinTok ts) from rfl]
    rw [splitChar_append ' ' tag (t ++ joinTok ts) htag]
    rw [ih t (hts t (List.mem_cons_self t ts)) (fun u hu => hts u (List.mem_cons_of_mem t hu))]

theorem interSp_join (ts : List Str) (h : ts ≠ []) : ' ' :: interSp ts = joinTok ts := by
  induction ts with
  | nil => exact absurd rfl h
  | cons t ts ih =>
    cases ts with
    | nil => simp [interSp, joinTok]
    | cons u us =>
      have ih2 := ih (by simp)
      rw [show interSp (t :: u :: us) = t ++ ' ' :: interSp (u :: us) from rfl]
      rw [show joinTok (t :: u :: us) = ' ' :: (t ++ joinTok (u :: us)) from rfl]
      rw [← ih2]

theorem lw_append_both (a x y : Str) : leadsWith (a ++ x) (a ++ y) = leadsWith x y := by
  induction a with
  | nil => rfl
  | cons c cs ih => simp [leadsWith, ih]

theorem lw_self_append (p r : Str) : leadsWith p (p ++ r) = true := by
  have := lw_append_both p [] r
  simpa [leadsWith] using this

theorem lw_exists (p s : Str) (h : leadsWith p s = true) : ∃ r, s = p ++ r := by
  induction p generalizing s with
  | nil => exact ⟨s, rfl⟩
  | cons c cs ih =>
    cases s with
    | nil => simp [leadsWith] at h
    | cons d ds =>
      simp only [leadsWith, Bool.and_eq_true, decide_eq_true_eq] at h
      obtain ⟨r, hr⟩ := ih ds h.2
      exact ⟨r, by rw [h.1, hr]; rfl⟩

theorem lw_length (p s : Str) (h : leadsWith p s = true) : p.length ≤ s.length := by
  obtain ⟨r, rfl⟩ := lw_exists p s h
  simp

theorem lw_eq_of_length (p s : Str) (h : leadsWith p s = true) (hl : s.length ≤ p.length) :
    p = s := by
  obtain ⟨r, rfl⟩ := lw_exists p s h
  have : r = [] := by
    rw [List.length_append] at hl
    have : r.length = 0 := by omega
    exact List.eq_nil_of_length_eq_zero this
  rw [this, List.append_nil]

theorem lw_mem (p s : Str) (h : leadsWith p s = true) (c : Char) (hc : c ∈ p) : c ∈ s := by
  obtain ⟨r, rfl⟩ := lw_exists p s h
  exact List.mem_append.mpr (Or.inl hc)

theorem lw_split (p T r : Str) (h : leadsWith p (T ++ r) = true) :
    leadsWith p T = true ∨ (leadsWith T p = true ∧ leadsWith (p.drop T.length) r = true) := by
  induction T generalizing p with
  | nil =>
    right
    exact ⟨rfl, h⟩
  | cons c cs ih =>
    cases p with
    | nil => left; rfl
    | cons d ds =>
      simp only [List.cons_append, leadsWith, Bool.and_eq_true, decide_eq_true_eq] at h ⊢
      rcases ih ds h.2 with h1 | h1
      · left; exact ⟨h.1, h1⟩
      · right
        refine ⟨⟨h.1.symm, h1.1⟩, ?_⟩
        simpa using h1.2

theorem lw_comparable (p q s : Str) (hp : leadsWith p s = true) (hq : leadsWith q s = true) :
    leadsWith p q = true ∨ leadsWith q p = true := by
  obtain ⟨r, rfl⟩ := lw_exists p s hp
  rcases lw_split q p r hq with h | h
  · right; exact h
  · left; exact h.1

theorem lw_false_of_both (p T r : Str) (h1 : leadsWith p T = false)
    (h2 : leadsWith T p = false) : leadsWith p (T ++ r) = false := by
  cases h : leadsWith p (T ++ r) with
  | false => rfl
  | true =>
    rcases lw_split p T r h with hh | hh
    · rw [h1] at hh; exact absurd hh (by simp)
    · rw [h2] at hh; exact absurd hh.1 (by simp)

theorem lw_tagspace_token (T a r : Str) (hT : ' ' ∉ T) (ha : ' ' ∉ a)
    (hr : r = [] ∨ ∃ r2, r = ' ' :: r2) (h : leadsWith (T ++ [' ']) (a ++ r) = true) :
    a = T := by
  have hps : leadsWith a (a ++ r) = true := lw_self_append a r
  rcases lw_comparable (T ++ [' ']) a (a ++ r) h hps with h1 | h1
  · exact absurd (lw_mem (T ++ [' ']) a h1 ' ' (List.mem_append.mpr (Or.inr (by simp)))) ha
  · rcases lw_split a T [' '] h1 with h2 | h2
    · obtain ⟨u, hu⟩ := lw_exists a T h2
      have h4 : leadsWith (u ++ [' ']) r = true := by
        have h5 : leadsWith (a ++ (u ++ [' '])) (a ++ r) = true := by
          rw [← List.append_assoc, ← hu]
          exact h
        rwa [lw_append_both] at h5
      cases u with
      | nil =>
        rw [hu]
        simp
      | cons v vs =>
        have hv : v ∈ T := by
          rw [hu]
          exact List.mem_append.mpr (Or.inr (List.mem_cons_self v vs))
        rcases hr with hre | ⟨r2, hre⟩
        · rw [hre] at h4
          simp [leadsWith] at h4
        · rw [hre] at h4
          simp only [List.cons_append, leadsWith, Bool.and_eq_true, decide_eq_true_eq] at h4
          exact absurd (h4.1 ▸ hv) hT
    · cases hdrop : a.drop T.length with
      | nil =>
        have hle : a.length ≤ T.length := by
          have := congrArg List.length hdrop
          simp at this
          omega
        exact (lw_eq_of_length T a h2.1 hle).symm
      | cons v vs =>
        have hlw := h2.2
        rw [hdrop] at hlw
        simp only [leadsWith, Bool.and_eq_true, decide_eq_true_eq] at hlw
        have hv : v ∈ a := by
          have : v ∈ a.drop T.length := by
            rw [hdrop]
            exact List.mem_cons_self v vs
          exact List.mem_of_mem_drop this
        exact absurd (hlw.1 ▸ hv) ha

theorem pySplitAux_token (t : Str) (ht : noWS t = true) :
    ∀ cur s, pySplitAux cur (t ++ s) = pySplitAux (t.reverse ++ cur) s := by
  induction t with
  | nil => intro cur s; simp
  | cons c cs ih =>
    intro cur s
    have hc : isSpaceC c = false := by
      rw [noWS, List.all_eq_true] at ht
      have := ht c (List.mem_cons_self c cs)
      simpa using this
    have hcs : noWS cs = true := by
      rw [noWS, List.all_eq_true] at ht ⊢
      intro d hd
      exact ht d (List.mem_cons_of_mem c hd)
    simp only [List.cons_append, pySplitAux, hc, Bool.false_eq_true, if_false, List.append_eq]
    rw [ih hcs (c :: cur) s]
    simp

theorem pySplitAux_ne_nil (cur : Str) (h : cur ≠ []) (s : Str) : pySplitAux cur s ≠ [] := by
  induction s generalizing cur with
  | nil => simp [pySplitAux, h]
  | cons c cs ih =>
    simp only [pySplitAux]
    by_cases hc : isSpaceC c
    · simp [hc, h]
    · simp only [hc, Bool.false_eq_true, if_false]
      exact ih (c :: cur) (by simp)

theorem pySplit_token_join (a : Str) (ha : noWS a = true) (hne : a ≠ []) (ps : List Str)
    (hps : ∀ p ∈ ps, noWS p = true ∧ p ≠ []) : pySplit (a ++ joinTok ps) = a :: ps := by
  induction ps generalizing a with
  | nil =>
    unfold pySplit
    rw [show joinTok [] = [] from rfl, pySplitAux_token a ha [] []]
    simp [pySplitAux, hne]
  | cons p ps ih =>
    unfold pySplit
    rw [show joinTok (p :: ps) = ' ' :: (p ++ joinTok ps) from rfl]
    rw [pySplitAux_token a ha [] (' ' :: (p ++ joinTok ps))]
    rw [show pySplitAux (a.reverse ++ []) (' ' :: (p ++ joinTok ps))
        = if a.reverse ++ [] = [] then pySplitAux [] (p ++ joinTok ps)
          else (a.reverse ++ []).reverse :: pySplitAux [] (p ++ joinTok ps) from by
      simp only [pySplitAux]
      rw [if_pos (by decide : isSpaceC ' ' = true)]]
    have hrev : ¬ (a.reverse ++ [] = []) := by simp [hne]
    rw [if_neg hrev]
    simp only [List.append_nil, List.reverse_reverse]
    have := ih p (hps p (List.mem_cons_self p ps)).1 (hps p (List.mem_cons_self p ps)).2
      (fun q hq => hps q (List.mem_cons_of_mem p hq))
    unfold pySplit at this
    rw [this]

theorem pySplit_ne_nil_of_head (c : Char) (s : Str) (hc : isSpaceC c = false) :
    pySplit (c :: s) ≠ [] := by
  unfold pySplit
  simp only [pySplitAux, hc, Bool.false_eq_true, if_false]
  exact pySplitAux_ne_nil [c] (by simp) s

theorem dispatch_bma (r : Str) :
    endpointOf (bmaT ++ ' ' :: r) = bmaFromInline (bmaT ++ ' ' :: r) := by
  have hc : leadsWith (bmaT ++ [' ']) (bmaT ++ ' ' :: r) = true := by
    rw [show bmaT ++ ' ' :: r = bmaT ++ ([' '] ++ r) from rfl, ← List.append_assoc,
      lw_self_append]
  unfold endpointOf
  rw [if_pos hc]

theorem dispatch_bmas (r : Str) :
    endpointOf (bmasT ++ ' ' :: r) = bmasFromInline (bmasT ++ ' ' :: r) := by
  have h1 : leadsWith (bmaT ++ [' ']) (bmasT ++ ' ' :: r) = false :=
    lw_false_of_both (bmaT ++ [' ']) bmasT (' ' :: r) (by decide) (by decide)
  have hc : leadsWith (bmasT ++ [' ']) (bmasT ++ ' ' :: r) = true := by
    rw [show bmasT ++ ' ' :: r = bmasT ++ ([' '] ++ r) from rfl, ← List.append_assoc,
      lw_self_append]
  unfold endpointOf
  rw [if_neg (by simp [h1]), if_pos hc]

theorem dispatch_ws2p (r : Str) :
    endpointOf (ws2pT ++ ' ' :: r) = ws2pFromInline (ws2pT ++ ' ' :: r) := by
  have h1 : leadsWith (bmaT ++ [' ']) (ws2pT ++ ' ' :: r) = false :=
    lw_false_of_both (bmaT ++ [' ']) ws2pT (' ' :: r) (by decide) (by decide)
  have h2 : leadsWith (bmasT ++ [' ']) (ws2pT ++ ' ' :: r) = false :=
    lw_false_of_both (bmasT ++ [' ']) ws2pT (' ' :: r) (by decide) (by decide)
  have hc : leadsWith (ws2pT ++ [' ']) (ws2pT ++ ' ' :: r) = true := by
    rw [show ws2pT ++ ' ' :: r = ws2pT ++ ([' '] ++ r) from rfl, ← List.append_assoc,
      lw_self_append]
  unfold endpointOf
  rw [if_neg (by simp [h1]), if_neg (by simp [h2]), if_pos hc]

theorem dispatch_escore (r : Str) :
    endpointOf (escoreT ++ ' ' :: r) = escoreFromInline (escoreT ++ ' ' :: r) := by
  have h1 : leadsWith (bmaT ++ [' ']) (escoreT ++ ' ' :: r) = false :=
    lw_false_of_both (bmaT ++ [' ']) escoreT (' ' :: r) (by decide) (by decide)
  have h2 : leadsWith (bmasT ++ [' ']) (escoreT ++ ' ' :: r) = false :=
    lw_false_of_both (bmasT ++ [' ']) escoreT (' ' :: r) (by decide) (by decide)
  have h3 : leadsWith (ws2pT ++ [' ']) (escoreT ++ ' ' :: r) = false :=
    lw_false_of_both (ws2pT ++ [' ']) escoreT (' ' :: r) (by decide) (by decide)
  have hc : leadsWith (escoreT ++ [' ']) (escoreT ++ ' ' :: r) = true := by
    rw [show escoreT ++ ' ' :: r = escoreT ++ ([' '] ++ r) from rfl, ← List.append_assoc,
      lw_self_append]
  unfold endpointOf
  rw [if_neg (by simp [h1]), if_neg (by simp [h2]), if_neg (by simp [h3]), if_pos hc]

theorem dispatch_esuser (r : Str) :
    endpointOf (esuserT ++ ' ' :: r) = esuserFromInline (esuserT ++ ' ' :: r) := by
  have h1 : leadsWith (bmaT ++ [' ']) (esuserT ++ ' ' :: r) = false :=
    lw_false_of_both (bmaT ++ [' ']) esuserT (' ' :: r) (by decide) (by decide)
  have h2 : leadsWith (bmasT ++ [' ']) (esuserT ++ ' ' :: r) = false :=
    lw_false_of_both (bmasT ++ [' ']) esuserT (' ' :: r) (by decide) (by decide)
  have h3 : leadsWith (ws2pT ++ [' ']) (esuserT ++ ' ' :: r) = false :=
    lw_false_of_both (ws2pT ++ [' ']) esuserT (' ' :: r) (by decide) (by decide)
  have h4 : leadsWith (escoreT ++ [' ']) (esuserT ++ ' ' :: r) = false :=
    lw_false_of_both (escoreT ++ [' ']) esuserT (' ' :: r) (by decide) (by decide)
  have hc : leadsWith (esuserT ++ [' ']) (esuserT ++ ' ' :: r) = true := by
    rw [show esuserT ++ ' ' :: r = esuserT ++ ([' '] ++ r) from rfl, ← List.append_assoc,
      lw_self_append]
  unfold endpointOf
  rw [if_neg (by simp [h1]), if_neg (by simp [h2]), if_neg (by simp [h3]),
    if_neg (by simp [h4]), if_pos hc]

theorem dispatch_essub (r : Str) :
    endpointOf (essubT ++ ' ' :: r) = essubFromInline (essubT ++ ' ' :: r) := by
  have h1 : leadsWith (bmaT ++ [' ']) (essubT ++ ' ' :: r) = false :=
    lw_false_of_both (bmaT ++ [' ']) essubT (' ' :: r) (by decide) (by decide)
  have h2 : leadsWith (bmasT ++ [' ']) (essubT ++ ' ' :: r) = false :=
    lw_false_of_both (bmasT ++ [' ']) essubT (' ' :: r) (by decide) (by decide)
  have h3 : leadsWith (ws2pT ++ [' ']) (essubT ++ ' ' :: r) = false :=
    lw_false_of_both (ws2pT ++ [' ']) essubT (' ' :: r) (by decide) (by decide)
  have h4 : leadsWith (escoreT ++ [' ']) (essubT ++ ' ' :: r) = false :=
    lw_false_of_both (escoreT ++ [' ']) essubT (' ' :: r) (by decide) (by decide)
  have h5 : leadsWith (esuserT ++ [' ']) (essubT ++ ' ' :: r) = false :=
    lw_false_of_both (esuserT ++ [' ']) essubT (' ' :: r) (by decide) (by decide)
  have hc : leadsWith (essubT ++ [' ']) (essubT ++ ' ' :: r) = true := by
    rw [show essubT ++ ' ' :: r = essubT ++ ([' '] ++ r) from rfl, ← List.append_assoc,
      lw_self_append]
  unfold endpointOf
  rw [if_neg (by simp [h1]), if_neg (by simp [h2]), if_neg (by simp [h3]),
    if_neg (by simp [h4]), if_neg (by simp [h5]), if_pos hc]

theorem matchOpt_take {α : Type} (cl : Str → Bool) (next : List Str → Option α)
    (t : Str) (ts2 : List Str) (h : cl t = true) (r : α) (hn : next ts2 = some r) :
    matchOpt cl next (t :: ts2) = some (some t, r) := by
  simp only [matchOpt]
  rw [if_pos h, hn]

theorem matchOpt_skip {α : Type} (cl : Str → Bool) (next : List Str → Option α)
    (ts : List Str) (h : ∀ t ts2, ts = t :: ts2 → cl t = false) (r : α)
    (hn : next ts = some r) : matchOpt cl next ts = some (none, r) := by
  cases ts with
  | nil =>
    simp only [matchOpt]
    rw [hn]
  | cons t ts2 =>
    have hf := h t ts2 rfl
    simp only [matchOpt]
    rw [if_neg (by simp [hf]), hn]

theorem matchOpts_eval {α : Type} (tail : List Str → Option α) (res : α) (rest : List Str)
    (s v4 v6 : Option Str)
    (hs : ∀ a, s = some a → hostB a = true)
    (h4 : ∀ b, v4 = some b → ipv4B b = true)
    (h6 : ∀ c, v6 = some c → ipv6B c = true)
    (htail : tail rest = some res)
    (hrest : ∀ t ts, rest = t :: ts → hostB t = false ∧ ipv4B t = false ∧ ipv6B t = false) :
    matchOpt hostB (matchOpt ipv4B (matchOpt ipv6B tail))
      (optL s ++ optL v4 ++ optL v6 ++ rest) = some (s, v4, v6, res) := by
  have hrest6 : matchOpt ipv6B tail rest = some (none, res) :=
    matchOpt_skip ipv6B tail rest (fun t ts ht => ((hrest t ts ht).2.2)) res htail
  have hrest46 : matchOpt ipv4B (matchOpt ipv6B tail) rest = some (none, none, res) :=
    matchOpt_skip ipv4B (matchOpt ipv6B tail) rest (fun t ts ht => ((hrest t ts ht).2.1)) _ hrest6
  have hrest346 : matchOpt hostB (matchOpt ipv4B (matchOpt ipv6B tail)) rest
      = some (none, none, none, res) :=
    matchOpt_skip hostB _ rest (fun t ts ht => ((hrest t ts ht).1)) _ hrest46
  rcases s with _ | a <;> rcases v4 with _ | b <;> rcases v6 with _ | c
  · -- none, none, none
    simpa [optL] using hrest346
  · -- none, none, some c
    have hc := h6 c rfl
    have s6 : matchOpt ipv6B tail (c :: rest) = some (some c, res) :=
      matchOpt_take ipv6B tail c rest hc res htail
    have s46 : matchOpt ipv4B (matchOpt ipv6B tail) (c :: rest) = some (none, some c, res) :=
      matchOpt_skip ipv4B _ (c :: rest)
        (fun t ts ht => by cases ht; exact ipv6_not_ipv4 c hc) _ s6
    have s346 : matchOpt hostB (matchOpt ipv4B (matchOpt ipv6B tail)) (c :: rest)
        = some (none, none, some c, res) :=
      matchOpt_skip hostB _ (c :: rest)
        (fun t ts ht => by cases ht; exact ipv6_not_host c hc) _ s46
    simpa [optL] using s346
  · -- none, some b, none
    have hb := h4 b rfl
    have s46 : matchOpt ipv4B (matchOpt ipv6B tail) (b :: rest) = some (some b, none, res) :=
      matchOpt_take ipv4B _ b rest hb _ hrest6
    have s346 : matchOpt hostB (matchOpt ipv4B (matchOpt ipv6B tail)) (b :: rest)
        = some (none, some b, none, res) :=
      matchOpt_skip hostB _ (b :: rest)
        (fun t ts ht => by cases ht; exact ipv4_not_host b hb) _ s46
    simpa [optL] using s346
  · -- none, some b, some c
    have hb := h4 b rfl
    have hc := h6 c rfl
    have s6 : matchOpt ipv6B tail (c :: rest) = some (some c, res) :=
      matchOpt_take ipv6B tail c rest hc res htail
    have s46 : matchOpt ipv4B (matchOpt ipv6B tail) (b :: c :: rest)
        = some (some b, some c, res) :=
      matchOpt_take ipv4B _ b (c :: rest) hb _ s6
    have s346 : matchOpt hostB (matchOpt ipv4B (matchOpt ipv6B tail)) (b :: c :: rest)
        = some (none, some b, some c, res) :=
      matchOpt_skip hostB _ (b :: c :: rest)
        (fun t ts ht => by cases ht; exact ipv4_not_host b hb) _ s46
    simpa [optL] using s346
  · -- some a, none, none
    have ha := hs a rfl
    have s346 : matchOpt hostB (matchOpt ipv4B (matchOpt ipv6B tail)) (a :: rest)
        = some (some a, none, none, res) :=
      matchOpt_take hostB _ a rest ha _ hrest46
    simpa [optL] using s346
  · -- some a, none, some c
    have ha := hs a rfl
    have hc := h6 c rfl
    have s6 : matchOpt ipv6B tail (c :: rest) = some (some c, res) :=
      matchOpt_take ipv6B tail c rest hc res htail
    have s46 : matchOpt ipv4B (matchOpt ipv6B tail) (c :: rest) = some (none, some c, res) :=
      matchOpt_skip ipv4B _ (c :: rest)
        (fun t ts ht => by cases ht; exact ipv6_not_ipv4 c hc) _ s6
    have s346 : matchOpt hostB (matchOpt ipv4B (matchOpt ipv6B tail)) (a :: c :: rest)
        = some (some a, none, some c, res) :=
      matchOpt_take hostB _ a (c :: rest) ha _ s46
    simpa [optL] using s346
  · -- some a, some b, none
    have ha := hs a rfl
    have hb := h4 b rfl
    have s46 : matchOpt ipv4B (matchOpt ipv6B tail) (b :: rest) = some (some b, none, res) :=
      matchOpt_take ipv4B _ b rest hb _ hrest6
    have s346 : matchOpt hostB (matchOpt ipv4B (matchOpt ipv6B tail)) (a :: b :: rest)
        = some (some a, some b, none, res) :=
      matchOpt_take hostB _ a (b :: rest) ha _ s46
    simpa [optL] using s346
  · -- some a, some b, some c
    have ha := hs a rfl
    have hb := h4 b rfl
    have hc := h6 c rfl
    have s6 : matchOpt ipv6B tail (c :: rest) = some (some c, res) :=
      matchOpt_take ipv6B tail c rest hc res htail
    have s46 : matchOpt ipv4B (matchOpt ipv6B tail) (b :: c :: rest)
        = some (some b, some c, res) :=
      matchOpt_take ipv4B _ b (c :: rest) hb _ s6
    have s346 : matchOpt hostB (matchOpt ipv4B (matchOpt ipv6B tail)) (a :: b :: c :: rest)
        = some (some a, some b, some c, res) :=
      matchOpt_take hostB _ a (b :: c :: rest) ha _ s46
    simpa [optL] using s346

theorem mem_optL {t : Str} {s : Option Str} (h : t ∈ optL s) : s = some t := by
  cases s with
  | none => simp [optL] at h
  | some u =>
    simp [optL] at h
    rw [h]

theorem optWfB_class {cl : Str → Bool} {s : Option Str} (h : optWfB cl s = true) :
    ∀ a, s = some a → cl a = true := by
  intro a ha
  subst ha
  simp only [optWfB, Bool.and_eq_true] at h
  exact h.2

theorem optTok_optL {cl : Str → Bool} {s : Option Str} (h : optWfB cl s = true) :
    optTok s = optL s := by
  cases s with
  | none => rfl
  | some t =>
    simp only [optWfB, Bool.and_eq_true] at h
    have : ¬ t = [] := by
      simpa [List.isEmpty_iff] using h.1
    simp [optTok, optL, this]

theorem joinTok_shape (ts : List Str) (h : ts ≠ []) : ∃ r, joinTok ts = ' ' :: r := by
  cases ts with
  | nil => exact absurd rfl h
  | cons t ts2 => exact ⟨t ++ joinTok ts2, rfl⟩

theorem bmaFromInline_eval (line : Str) (ts : List Str)
    (hsplit : splitChar ' ' line = bmaT :: ts) :
    bmaFromInline line =
      match matchBMA ts with
      | some (s, v4, v6, pt) => .ok (.bma s v4 v6 (charsToNat pt))
      | none => .error .malformed := by
  unfold bmaFromInline
  rw [hsplit]
  simp

theorem bmasFromInline_eval (line : Str) (ts : List Str)
    (hsplit : splitChar ' ' line = bmasT :: ts) :
    bmasFromInline line =
      match matchBMAS ts with
      | some (s, v4, v6, pt, pa) => .ok (.bmas s v4 v6 (charsToNat pt) (pa.getD []))
      | none => .error .malformed := by
  unfold bmasFromInline
  rw [hsplit]
  simp

theorem hostB_ne_nil (t : Str) (h : hostB t = true) : t ≠ [] := by
  simp only [hostB, Bool.and_eq_true] at h
  simpa [List.isEmpty_iff] using h.1.1

theorem ipv4B_ne_nil (t : Str) (h : ipv4B t = true) : t ≠ [] := by
  simp only [ipv4B, Bool.and_eq_true] at h
  obtain ⟨c, hc, -⟩ := List.any_eq_true.mp h.1.2
  intro hnil
  rw [hnil] at hc
  exact List.not_mem_nil c hc

theorem ws2pidB_ne_nil (t : Str) (h : ws2pidB t = true) : t ≠ [] := by
  simp only [ws2pidB, Bool.and_eq_true, decide_eq_true_eq] at h
  intro hnil
  rw [hnil] at h
  simp at h

theorem ep_roundtrip (e : Endpoint) (h : wfE e = true) :
    endpointOf (Endpoint.inline e) = .ok e := by
  cases e with
  | bma s v4 v6 p =>
    simp only [wfE, Bool.and_eq_true, bne_iff_ne, ne_eq] at h
    obtain ⟨⟨⟨hs, h4⟩, h6⟩, hp⟩ := h
    have hport : portB (natChars p) = true := portB_natChars p hp
    have hline : Endpoint.inline (.bma s v4 v6 p)
        = bmaT ++ joinTok (optL s ++ optL v4 ++ optL v6 ++ [natChars p]) := by
      simp only [Endpoint.inline, natTok, optTok_optL hs, optTok_optL h4, optTok_optL h6]
      rw [if_neg hp]
    have hmem : ∀ t ∈ optL s ++ optL v4 ++ optL v6 ++ [natChars p], ' ' ∉ t := by
      intro t ht
      simp only [List.mem_append, List.mem_singleton] at ht
      rcases ht with ((h1 | h1) | h1) | h1
      · exact noWS_space_not_mem t (hostB_noWS t (optWfB_class hs t (mem_optL h1)))
      · exact noWS_space_not_mem t (ipv4B_noWS t (optWfB_class h4 t (mem_optL h1)))
      · exact noWS_space_not_mem t (ipv6B_noWS t (optWfB_class h6 t (mem_optL h1)))
      · subst h1
        exact noWS_space_not_mem _ (portB_noWS _ hport)
    have hne : optL s ++ optL v4 ++ optL v6 ++ [natChars p] ≠ [] := by simp
    obtain ⟨r, hr⟩ := joinTok_shape _ hne
    have hsplit : splitChar ' ' (bmaT ++ joinTok (optL s ++ optL v4 ++ optL v6 ++ [natChars p]))
        = bmaT :: (optL s ++ optL v4 ++ optL v6 ++ [natChars p]) :=
      joinTok_split _ bmaT (by decide) hmem
    have hmatch : matchBMA (optL s ++ optL v4 ++ optL v6 ++ [natChars p])
        = some (s, v4, v6, natChars p) := by
      apply matchOpts_eval matchPort (natChars p) [natChars p] s v4 v6
        (optWfB_class hs) (optWfB_class h4) (optWfB_class h6)
      · simp [matchPort, hport]
      · intro t ts2 ht
        injection ht with h1 h2
        subst h1
        exact ⟨port_not_host _ hport, port_not_ipv4 _ hport, port_not_ipv6 _ hport⟩
    rw [hline, hr, dispatch_bma r, ← hr, bmaFromInline_eval _ _ hsplit, hmatch]
    simp [charsToNat_natChars]
  | bmas s v4 v6 p pa =>
    simp only [wfE, Bool.and_eq_true, bne_iff_ne, ne_eq, Bool.or_eq_true] at h
    obtain ⟨⟨⟨⟨hs, h4⟩, h6⟩, hp⟩, hpa⟩ := h
    have hport : portB (natChars p) = true := portB_natChars p hp
    by_cases hpa0 : pa = []
    · subst hpa0
      have hline : Endpoint.inline (.bmas s v4 v6 p [])
          = bmasT ++ ' ' :: interSp (optL s ++ optL v4 ++ optL v6 ++ [natChars p]) := by
        simp only [Endpoint.inline, natTok, strTok, optTok_optL hs, optTok_optL h4,
          optTok_optL h6]
        rw [if_neg hp]
        simp
      have hmem : ∀ t ∈ optL s ++ optL v4 ++ optL v6 ++ [natChars p], ' ' ∉ t := by
        intro t ht
        simp only [List.mem_append, List.mem_singleton] at ht
        rcases ht with ((h1 | h1) | h1) | h1
        · exact noWS_space_not_mem t (hostB_noWS t (optWfB_class hs t (mem_optL h1)))
        · exact noWS_space_not_mem t (ipv4B_noWS t (optWfB_class h4 t (mem_optL h1)))
        · exact noWS_space_not_mem t (ipv6B_noWS t (optWfB_class h6 t (mem_optL h1)))
        · subst h1
          exact noWS_space_not_mem _ (portB_noWS _ hport)
      have hne : optL s ++ optL v4 ++ optL v6 ++ [natChars p] ≠ [] := by simp
      obtain ⟨r, hr⟩ := joinTok_shape _ hne
      have hsplit : splitChar ' '
          (bmasT ++ joinTok (optL s ++ optL v4 ++ optL v6 ++ [natChars p]))
          = bmasT :: (optL s ++ optL v4 ++ optL v6 ++ [natChars p]) :=
        joinTok_split _ bmasT (by decide) hmem
      have hmatch : matchBMAS (optL s ++ optL v4 ++ optL v6 ++ [natChars p])
          = some (s, v4, v6, natChars p, none) := by
        apply matchOpts_eval matchPortPath (natChars p, none) [natChars p] s v4 v6
          (optWfB_class hs) (optWfB_class h4) (optWfB_class h6)
        · simp [matchPortPath, hport]
        · intro t ts2 ht
          injection ht with h1 h2
          subst h1
          exact ⟨port_not_host _ hport, port_not_ipv4 _ hport, port_not_ipv6 _ hport⟩
      rw [hline, interSp_join _ hne, hr, dispatch_bmas r, ← hr,
        bmasFromInline_eval _ _ hsplit, hmatch]
      simp [charsToNat_natChars]
    · have hpath : pathB pa = true := by
        rcases hpa with h1 | h1
        · exact absurd (by simpa [List.isEmpty_iff] using h1) hpa0
        · exact h1
      have hline : Endpoint.inline (.bmas s v4 v6 p pa)
          = bmasT ++ ' ' :: interSp (optL s ++ optL v4 ++ optL v6 ++ [natChars p, pa]) := by
        simp only [Endpoint.inline, natTok, strTok, optTok_optL hs, optTok_optL h4,
          optTok_optL h6]
        rw [if_neg hp, if_neg hpa0]
        simp
      have hmem : ∀ t ∈ optL s ++ optL v4 ++ optL v6 ++ [natChars p, pa], ' ' ∉ t := by
        intro t ht
        simp only [List.mem_append, List.mem_cons, List.mem_singleton,
          List.not_mem_nil, or_false] at ht
        rcases ht with ((h1 | h1) | h1) | h1 | h1
        · exact noWS_space_not_mem t (hostB_noWS t (optWfB_class hs t (mem_optL h1)))
        · exact noWS_space_not_mem t (ipv4B_noWS t (optWfB_class h4 t (mem_optL h1)))
        · exact noWS_space_not_mem t (ipv6B_noWS t (optWfB_class h6 t (mem_optL h1)))
        · subst h1
          exact noWS_space_not_mem _ (portB_noWS _ hport)
        · subst h1
          exact noWS_space_not_mem _ (pathB_noWS _ hpath)
      have hne : optL s ++ optL v4 ++ optL v6 ++ [natChars p, pa] ≠ [] := by simp
      obtain ⟨r, hr⟩ := joinTok_shape _ hne
      have hsplit : splitChar ' '
          (bmasT ++ joinTok (optL s ++ optL v4 ++ optL v6 ++ [natChars p, pa]))
          = bmasT :: (optL s ++ optL v4 ++ optL v6 ++ [natChars p, pa]) :=
        joinTok_split _ bmasT (by decide) hmem
      have hmatch : matchBMAS (optL s ++ optL v4 ++ optL v6 ++ [natChars p, pa])
          = some (s, v4, v6, natChars p, some pa) := by
        apply matchOpts_eval matchPortPath (natChars p, some pa) [natChars p, pa] s v4 v6
          (optWfB_class hs) (optWfB_class h4) (optWfB_class h6)
        · simp [matchPortPath, hport, hpath]
        · intro t ts2 ht
          injection ht with h1 h2
          subst h1
          exact ⟨port_not_host _ hport, port_not_ipv4 _ hport, port_not_ipv6 _ hport⟩
      rw [hline, interSp_join _ hne, hr, dispatch_bmas r, ← hr,
        bmasFromInline_eval _ _ hsplit, hmatch]
      simp [charsToNat_natChars]
  | ws2p id srv p pa =>
    simp only [wfE, Bool.and_eq_true, bne_iff_ne, ne_eq] at h
    obtain ⟨⟨⟨hid, hsrv⟩, hp⟩, hpa⟩ := h
    have hport : portB (natChars p) = true := portB_natChars p hp
    have hsrvne : srv ≠ [] := by
      rcases Bool.or_eq_true_iff.mp hsrv with h1 | h1
      · exact hostB_ne_nil srv h1
      · exact ipv4B_ne_nil srv h1
    have hsrvWS : noWS srv = true := by
      rcases Bool.or_eq_true_iff.mp hsrv with h1 | h1
      · exact hostB_noWS srv h1
      · exact ipv4B_noWS srv h1
    by_cases hpa0 : pa = []
    · subst hpa0
      have hline : Endpoint.inline (.ws2p id srv p [])
          = ws2pT ++ ' ' :: interSp [id, srv, natChars p] := by
        simp only [Endpoint.inline, natTok, strTok]
        rw [if_neg (ws2pidB_ne_nil id hid), if_neg hsrvne, if_neg hp]
        simp
      have hmem : ∀ t ∈ [id, srv, natChars p], ' ' ∉ t := by
        intro t ht
        simp only [List.mem_cons, List.not_mem_nil, or_false] at ht
        rcases ht with h1 | h1 | h1
        · subst h1
          exact noWS_space_not_mem _ (ws2pidB_noWS _ hid)
        · subst h1
          exact noWS_space_not_mem _ hsrvWS
        · subst h1
          exact noWS_space_not_mem _ (portB_noWS _ hport)
      have hne : ([id, srv, natChars p] : List Str) ≠ [] := by simp
      obtain ⟨r, hr⟩ := joinTok_shape _ hne
      have hsplit : splitChar ' ' (ws2pT ++ joinTok [id, srv, natChars p])
          = ws2pT :: [id, srv, natChars p] :=
        joinTok_split _ ws2pT (by decide) hmem
      rw [hline, interSp_join _ hne, hr, dispatch_ws2p r, ← hr]
      unfold ws2pFromInline
      rw [hsplit]
      simp [hid, hsrv, hport, charsToNat_natChars]
    · have hpath : pathB pa = true := by
        rcases Bool.or_eq_true_iff.mp hpa with h1 | h1
        · exact absurd (by simpa [List.isEmpty_iff] using h1) hpa0
        · exact h1
      have hline : Endpoint.inline (.ws2p id srv p pa)
          = ws2pT ++ ' ' :: interSp [id, srv, natChars p, pa] := by
        simp only [Endpoint.inline, natTok, strTok]
        rw [if_neg (ws2pidB_ne_nil id hid), if_neg hsrvne, if_neg hp, if_neg hpa0]
        simp
      have hmem : ∀ t ∈ [id, srv, natChars p, pa], ' ' ∉ t := by
        intro t ht
        simp only [List.mem_cons, List.not_mem_nil, or_false] at ht
        rcases ht with h1 | h1 | h1 | h1
        · subst h1
          exact noWS_space_not_mem _ (ws2pidB_noWS _ hid)
        · subst h1
          exact noWS_space_not_mem _ hsrvWS
        · subst h1
          exact noWS_space_not_mem _ (portB_noWS _ hport)
        · subst h1
          exact noWS_space_not_mem _ (pathB_noWS _ hpath)
      have hne : ([id, srv, natChars p, pa] : List Str) ≠ [] := by simp
      obtain ⟨r, hr⟩ := joinTok_shape _ hne
      have hsplit : splitChar ' ' (ws2pT ++ joinTok [id, srv, natChars p, pa])
          = ws2pT :: [id, srv, natChars p, pa] :=
        joinTok_split _ ws2pT (by decide) hmem
      rw [hline, interSp_join _ hne, hr, dispatch_ws2p r, ← hr]
      unfold ws2pFromInline
      rw [hsplit]
      simp [hid, hsrv, hport, hpath, charsToNat_natChars]
  | escore srv p =>
    simp only [wfE, Bool.and_eq_true, bne_iff_ne, ne_eq] at h
    obtain ⟨hsrv, hp⟩ := h
    have hport : portB (natChars p) = true := portB_natChars p hp
    have hsrvne : srv ≠ [] := by
      rcases Bool.or_eq_true_iff.mp hsrv with h1 | h1
      · exact hostB_ne_nil srv h1
      · exact ipv4B_ne_nil srv h1
    have hsrvWS : noWS srv = true := by
      rcases Bool.or_eq_true_iff.mp hsrv with h1 | h1
      · exact hostB_noWS srv h1
      · exact ipv4B_noWS srv h1
    have hline : Endpoint.inline (.escore srv p)
        = escoreT ++ ' ' :: interSp [srv, natChars p] := by
      simp only [Endpoint.inline, natTok, strTok]
      rw [if_neg hsrvne, if_neg hp]
      simp
    have hmem : ∀ t ∈ [srv, natChars p], ' ' ∉ t := by
      intro t ht
      simp only [List.mem_cons, List.not_mem_nil, or_false] at ht
      rcases ht with h1 | h1
      · subst h1
        exact noWS_space_not_mem _ hsrvWS
      · subst h1
        exact noWS_space_not_mem _ (portB_noWS _ hport)
    have hne : ([srv, natChars p] : List Str) ≠ [] := by simp
    obtain ⟨r, hr⟩ := joinTok_shape _ hne
    have hsplit : splitChar ' ' (escoreT ++ joinTok [srv, natChars p])
        = escoreT :: [srv, natChars p] :=
      joinTok_split _ escoreT (by decide) hmem
    rw [hline, interSp_join _ hne, hr, dispatch_escore r, ← hr]
    unfold escoreFromInline
    rw [hsplit]
    simp [hsrv, hport, charsToNat_natChars]
  | esuser srv p =>
    simp only [wfE, Bool.and_eq_true, bne_iff_ne, ne_eq] at h
    obtain ⟨hsrv, hp⟩ := h
    have hport : portB (natChars p) = true := portB_natChars p hp
    have hsrvne : srv ≠ [] := by
      rcases Bool.or_eq_true_iff.mp hsrv with h1 | h1
      · exact hostB_ne_nil srv h1
      · exact ipv4B_ne_nil srv h1
    have hsrvWS : noWS srv = true := by
      rcases Bool.or_eq_true_iff.mp hsrv with h1 | h1
      · exact hostB_noWS srv h1
      · exact ipv4B_noWS srv h1
    have hline : Endpoint.inline (.esuser srv p)
        = esuserT ++ ' ' :: interSp [srv, natChars p] := by
      simp only [Endpoint.inline, natTok, strTok]
      rw [if_neg hsrvne, if_neg hp]
      simp
    have hmem : ∀ t ∈ [srv, natChars p], ' ' ∉ t := by
      intro t ht
      simp only [List.mem_cons, List.not_mem_nil, or_false] at ht
      rcases ht with h1 | h1
      · subst h1
        exact noWS_space_not_mem _ hsrvWS
      · subst h1
        exact noWS_space_not_mem _ (portB_noWS _ hport)
    have hne : ([srv, natChars p] : List Str) ≠ [] := by simp
    obtain ⟨r, hr⟩ := joinTok_shape _ hne
    have hsplit : splitChar ' ' (esuserT ++ joinTok [srv, natChars p])
        = esuserT :: [srv, natChars p] :=
      joinTok_split _ esuserT (by decide) hmem
    rw [hline, interSp_join _ hne, hr, dispatch_esuser r, ← hr]
    unfold esuserFromInline
    rw [hsplit]
    simp [hsrv, hport, charsToNat_natChars]
  | essub srv p =>
    simp only [wfE, Bool.and_eq_true, bne_iff_ne, ne_eq] at h
    obtain ⟨hsrv, hp⟩ := h
    have hport : portB (natChars p) = true := portB_natChars p hp
    have hsrvne : srv ≠ [] := by
      rcases Bool.or_eq_true_iff.mp hsrv with h1 | h1
      · exact hostB_ne_nil srv h1
      · exact ipv4B_ne_nil srv h1
    have hsrvWS : noWS srv = true := by
      rcases Bool.or_eq_true_iff.mp hsrv with h1 | h1
      · exact hostB_noWS srv h1
      · exact ipv4B_noWS srv h1
    have hline : Endpoint.inline (.essub srv p)
        = essubT ++ ' ' :: interSp [srv, natChars p] := by
      simp only [Endpoint.inline, natTok, strTok]
      rw [if_neg hsrvne, if_neg hp]
      simp
    have hmem : ∀ t ∈ [srv, natChars p], ' ' ∉ t := by
      intro t ht
      simp only [List.mem_cons, List.not_mem_nil, or_false] at ht
      rcases ht with h1 | h1
      · subst h1
        exact noWS_space_not_mem _ hsrvWS
      · subst h1
        exact noWS_space_not_mem _ (portB_noWS _ hport)
    have hne : ([srv, natChars p] : List Str) ≠ [] := by simp
    obtain ⟨r, hr⟩ := joinTok_shape _ hne
    have hsplit : splitChar ' ' (essubT ++ joinTok [srv, natChars p])
        = essubT :: [srv, natChars p] :=
      joinTok_split _ essubT (by decide) hmem
    rw [hline, interSp_join _ hne, hr, dispatch_essub r, ← hr]
    unfold essubFromInline
    rw [hsplit]
    simp [hsrv, hport, charsToNat_natChars]
  | unknown a ps =>
    simp only [wfE, Bool.and_eq_true] at h
    obtain ⟨⟨⟨hane, hanoWS⟩, hntag⟩, hps⟩ := h
    have hnmem : a ∉ MANAGED_TAGS := by simpa using hntag
    have hane2 : a ≠ [] := by simpa [List.isEmpty_iff] using hane
    have hpsf : ∀ q ∈ ps, noWS q = true ∧ q ≠ [] := by
      intro q hq
      have hq2 := (List.all_eq_true.mp hps) q hq
      simp only [Bool.and_eq_true] at hq2
      exact ⟨hq2.2, by simpa [List.isEmpty_iff] using hq2.1⟩
    have hjr : joinTok ps = [] ∨ ∃ r2, joinTok ps = ' ' :: r2 := by
      cases ps with
      | nil => exact Or.inl rfl
      | cons q qs => exact Or.inr ⟨q ++ joinTok qs, rfl⟩
    have hnot : ∀ T ∈ MANAGED_TAGS, leadsWith (T ++ [' ']) (a ++ joinTok ps) = false := by
      intro T hT
      cases hlw : leadsWith (T ++ [' ']) (a ++ joinTok ps) with
      | false => rfl
      | true =>
        exfalso
        have hTn : ' ' ∉ T := by
          simp only [MANAGED_TAGS, List.mem_cons, List.not_mem_nil, or_false] at hT
          rcases hT with rfl | rfl | rfl | rfl | rfl | rfl <;> decide
        have heq : a = T :=
          lw_tagspace_token T a (joinTok ps) hTn (noWS_space_not_mem a hanoWS) hjr hlw
        exact hnmem (by rw [heq]; exact hT)
    show endpointOf (a ++ joinTok ps) = .ok (.unknown a ps)
    unfold endpointOf
    rw [if_neg (by simp [hnot bmaT (by decide)]),
      if_neg (by simp [hnot bmasT (by decide)]),
      if_neg (by simp [hnot ws2pT (by decide)]),
      if_neg (by simp [hnot escoreT (by decide)]),
      if_neg (by simp [hnot esuserT (by decide)]),
      if_neg (by simp [hnot essubT (by decide)])]
    unfold unknownFromInline
    rw [pySplit_token_join a hanoWS hane2 ps hpsf]

theorem lw_self_space_false (T r : Str) (hr : r = [] ∨ ∃ c r2, r = c :: r2 ∧ c ≠ ' ') :
    leadsWith (T ++ [' ']) (T ++ r) = false := by
  rw [lw_append_both]
  rcases hr with rfl | ⟨c, r2, rfl, hc⟩
  · rfl
  · simp only [leadsWith, Bool.and_eq_true, Bool.and_eq_false_iff, decide_eq_false_iff_not]
    left
    exact fun hh => hc hh.symm

theorem pySplit_head_ne (T r : Str) (hT : noWS T = true) (hne : T ≠ []) :
    pySplit (T ++ r) ≠ [] := by
  unfold pySplit
  rw [pySplitAux_token T hT [] r]
  exact pySplitAux_ne_nil (T.reverse ++ []) (by simp [hne]) r

/-- C1: the round trip `parse(render(e)) = e`, as claimed for every
constructible value, fails on the code: `BMAEndpoint.inline` drops every falsy
field, so a Basic endpoint with port `0` renders as the bare tag
`BASIC_MERKLED_API`; the factory then sees no `"BASIC_MERKLED_API "` leading
tag and re-parses the line as an Unknown endpoint, not as the original
value. -/
theorem c1_cex :
    endpointOf (Endpoint.inline (.bma none none none 0))
        = .ok (.unknown "BASIC_MERKLED_API".toList []) ∧
      Endpoint.inline (.bma none none none 0) = bmaT ∧
      Endpoint.unknown "BASIC_MERKLED_API".toList [] ≠ Endpoint.bma none none none 0 := by
  refine ⟨by decide, by decide, by decide⟩

/-- C1 (amended): for every endpoint value whose fields are well-formed for
its variant — present address fields nonempty and matching their grammars,
port nonzero, path empty or grammar-shaped, and for Unknown a nonempty
whitespace-free tag that is not a managed API tag with nonempty
whitespace-free properties — re-parsing the rendered line through the factory
yields an equal value, with absent optional fields staying absent. -/
theorem c1_round_trip (e : Endpoint) (h : wfE e = true) :
    endpointOf (Endpoint.inline e) = .ok e :=
  ep_roundtrip e h

theorem c1_round_trip_witness :
    wfE (.bma (some "g.host".toList) none (some "2a01:db8::1".toList) 443) = true ∧
      endpointOf (Endpoint.inline (.bma (some "g.host".toList) none
          (some "2a01:db8::1".toList) 443))
        = .ok (.bma (some "g.host".toList) none (some "2a01:db8::1".toList) 443) :=
  ⟨by decide, c1_round_trip (.bma (some "g.host".toList) none
    (some "2a01:db8::1".toList) 443) (by decide)⟩

/-- C3: the claim that resolve fails exactly on the empty line is refuted
twice: the whitespace-only line `" "` is non-empty yet fails (Python
`split()` yields no token and `UnknownEndpoint.from_inline` raises), and a
line with a known leading tag whose fields do not fit the grammar also
fails. -/
theorem c3_cex :
    (" ".toList ≠ ([] : Str)) ∧ endpointOf " ".toList = .error .malformed ∧
      endpointOf "BASIC_MERKLED_API ?".toList = .error .malformed := by
  refine ⟨by decide, by decide, by decide⟩

/-- C3 (amended): on a line that does not start with any managed API tag
followed by a space, resolve fails with MalformedEndpoint exactly when the
line contains no whitespace-delimited token (the empty and whitespace-only
lines), and succeeds as an Unknown endpoint whenever at least one token is
present; lines with a known leading tag instead follow that variant's
grammar, which can fail. -/
theorem c3_resolve_total (s : Str)
    (h : ∀ T ∈ MANAGED_TAGS, leadsWith (T ++ [' ']) s = false) :
    (pySplit s = [] → endpointOf s = .error .malformed) ∧
    (pySplit s ≠ [] → ∃ a ps, endpointOf s = .ok (.unknown a ps)) := by
  have hend : endpointOf s = unknownFromInline s := by
    unfold endpointOf
    rw [if_neg (by simp [h bmaT (by decide)]),
      if_neg (by simp [h bmasT (by decide)]),
      if_neg (by simp [h ws2pT (by decide)]),
      if_neg (by simp [h escoreT (by decide)]),
      if_neg (by simp [h esuserT (by decide)]),
      if_neg (by simp [h essubT (by decide)])]
  constructor
  · intro h0
    rw [hend]
    unfold unknownFromInline
    rw [h0]
  · intro h0
    cases hps : pySplit s with
    | nil => exact absurd hps h0
    | cons a ps =>
      refine ⟨a, ps, ?_⟩
      rw [hend]
      unfold unknownFromInline
      rw [hps]

theorem c3_resolve_total_witness :
    ∃ a ps, endpointOf "FOO bar".toList = .ok (.unknown a ps) :=
  (c3_resolve_total "FOO bar".toList (by decide)).2 (by decide)

/-- C4: the claim that requesting a connection target from an Unknown
endpoint fails with UnsupportedEndpoint is false on the code:
`UnknownEndpoint.conn_handler` raises nothing and returns the plain value
`ConnectionHandler("", "", "", 0, "")`. -/
theorem c4_cex :
    connHandler (.unknown "OTHER_PROTOCOL".toList ["9001".toList])
      = { http_scheme := [], ws_scheme := [], server := some [], port := 0, path := [] } := by
  decide

/-- C4 (amended): requesting a connection target from an Unknown endpoint
never fails; it returns the degenerate connection handler with empty schemes,
empty server and port 0 rather than a usable target. -/
theorem c4_unknown_dummy (a : Str) (ps : List Str) :
    connHandler (.unknown a ps)
      = { http_scheme := [], ws_scheme := [], server := some [], port := 0, path := [] } :=
  rfl

/-- C5: for Basic and SecuredBasic endpoints the connection target's host
follows the fixed priority: a truthy server name wins; otherwise a truthy
IPv6 literal is used in bracketed form; otherwise the IPv4 field is passed
through. -/
theorem c5_host_priority (s v4 v6 : Option Str) (p : Nat) (pa : Str) :
    (truthyO s = true →
      (connHandler (.bma s v4 v6 p)).server = s ∧
      (connHandler (.bmas s v4 v6 p pa)).server = s) ∧
    (truthyO s = false → truthyO v6 = true →
      (connHandler (.bma s v4 v6 p)).server = some (bracket (v6.getD [])) ∧
      (connHandler (.bmas s v4 v6 p pa)).server = some (bracket (v6.getD []))) ∧
    (truthyO s = false → truthyO v6 = false →
      (connHandler (.bma s v4 v6 p)).server = v4 ∧
      (connHandler (.bmas s v4 v6 p pa)).server = v4) := by
  refine ⟨fun h1 => ⟨?_, ?_⟩, fun h1 h2 => ⟨?_, ?_⟩, fun h1 h2 => ⟨?_, ?_⟩⟩
  · simp only [connHandler]
    rw [if_pos h1]
  · simp only [connHandler]
    rw [if_pos h1]
  · simp only [connHandler]
    rw [if_neg (by simp [h1]), if_pos h2]
  · simp only [connHandler]
    rw [if_neg (by simp [h1]), if_pos h2]
  · simp only [connHandler]
    rw [if_neg (by simp [h1]), if_neg (by simp [h2])]
  · simp only [connHandler]
    rw [if_neg (by simp [h1]), if_neg (by simp [h2])]

theorem c5_host_priority_witness :
    truthyO (some "g.host".toList) = true ∧
      (connHandler (.bma (some "g.host".toList) (some "1.2.3.4".toList)
          (some "2a01::1".toList) 443)).server = some "g.host".toList :=
  ⟨by decide,
    ((c5_host_priority (some "g.host".toList) (some "1.2.3.4".toList)
      (some "2a01::1".toList) 443 []).1 (by decide)).1⟩

/-- C6: the scheme pair of the resolved connection target depends only on the
variant: Basic yields the insecure pair http/ws; SecuredBasic, MeshPeer and
the three service variants yield the secure pair https/wss. -/
theorem c6_schemes (s v4 v6 : Option Str) (p : Nat) (pa id srv : Str) :
    ((connHandler (.bma s v4 v6 p)).http_scheme = "http".toList ∧
      (connHandler (.bma s v4 v6 p)).ws_scheme = "ws".toList) ∧
    ((connHandler (.bmas s v4 v6 p pa)).http_scheme = "https".toList ∧
      (connHandler (.bmas s v4 v6 p pa)).ws_scheme = "wss".toList) ∧
    ((connHandler (.ws2p id srv p pa)).http_scheme = "https".toList ∧
      (connHandler (.ws2p id srv p pa)).ws_scheme = "wss".toList) ∧
    ((connHandler (.escore srv p)).http_scheme = "https".toList ∧
      (connHandler (.escore srv p)).ws_scheme = "wss".toList) ∧
    ((connHandler (.esuser srv p)).http_scheme = "https".toList ∧
      (connHandler (.esuser srv p)).ws_scheme = "wss".toList) ∧
    ((connHandler (.essub srv p)).http_scheme = "https".toList ∧
      (connHandler (.essub srv p)).ws_scheme = "wss".toList) := by
  refine ⟨⟨?_, ?_⟩, ⟨?_, ?_⟩, ⟨?_, ?_⟩, ⟨?_, ?_⟩, ⟨?_, ?_⟩, ⟨?_, ?_⟩⟩ <;>
    simp only [connHandler] <;> (try split) <;> (try split) <;> rfl

/-- C8: the claim that endpoints of different variants are never equal is
false on the code: `SecuredBMAEndpoint` inherits `BMAEndpoint.__eq__`, whose
`isinstance` check accepts any `BMAEndpoint` (including the subclass), so a
Basic and a SecuredBasic endpoint with the same server/ipv4/ipv6/port compare
equal. -/
theorem c8_cex :
    variantIdx (.bma (some "g.a".toList) none none 10)
        ≠ variantIdx (.bmas (some "g.a".toList) none none 10 "/p".toList) ∧
      pyEq (.bma (some "g.a".toList) none none 10)
        (.bmas (some "g.a".toList) none none 10 "/p".toList) = true := by
  refine ⟨by decide, by decide⟩

/-- C8 (amended): for endpoints of different variants, Python equality holds
exactly when both values are in the BMA family (one Basic, one SecuredBasic)
and share the server/ipv4/ipv6/port quadruple that the inherited
`BMAEndpoint.__eq__` compares; every other cross-variant pair is unequal. -/
theorem c8_eq_per_variant (e1 e2 : Endpoint) (h : variantIdx e1 ≠ variantIdx e2) :
    pyEq e1 e2 = true ↔ ∃ q, bmaQuad e1 = some q ∧ bmaQuad e2 = some q := by
  cases e1 <;> cases e2 <;>
    first
      | exact absurd rfl h
      | simp [pyEq, bmaQuad]

theorem c8_eq_per_variant_witness :
    pyEq (.bma (some "g.a".toList) none none 10)
        (.bmas (some "g.a".toList) none none 10 "/p".toList) = true ↔
      ∃ q, bmaQuad (.bma (some "g.a".toList) none none 10) = some q ∧
        bmaQuad (.bmas (some "g.a".toList) none none 10 "/p".toList) = some q :=
  c8_eq_per_variant _ _ (by decide)

/-- C9: a `BASIC_MERKLED_API` line whose address token `999.1.1.1` has an
out-of-range octet matches no field class (the hostname class requires a
letter, the IPv4 class requires octets at most 255), so the whole-line
grammar rejects it and the factory raises MalformedEndpoint. -/
theorem c9_bad_ipv4_octet :
    endpointOf "BASIC_MERKLED_API 999.1.1.1 9001".toList = .error .malformed := by
  decide

/-- C10: a line equal to a managed tag with nothing after it, or a managed
tag followed immediately by a non-space character, is never handled by that
tag's grammar parser: dispatch requires `startswith(tag + " ")`, so the line
falls through to the Unknown fallback, which succeeds. -/
theorem c10_tag_needs_space (T : Str) (hT : T ∈ MANAGED_TAGS) (r : Str)
    (hr : r = [] ∨ ∃ c r2, r = c :: r2 ∧ c ≠ ' ') :
    ∃ a ps, endpointOf (T ++ r) = .ok (.unknown a ps) := by
  have hnot : ∀ T2 ∈ MANAGED_TAGS, leadsWith (T2 ++ [' ']) (T ++ r) = false := by
    intro T2 hT2
    by_cases heq : T2 = T
    · subst heq
      exact lw_self_space_false T2 r hr
    · fin_cases hT2 <;> fin_cases hT <;>
        first
          | exact absurd rfl heq
          | exact lw_false_of_both _ _ _ (by decide) (by decide)
  have hTnoWS : noWS T = true := by
    fin_cases hT <;> decide
  have hTne : T ≠ [] := by
    fin_cases hT <;> decide
  have hend : endpointOf (T ++ r) = unknownFromInline (T ++ r) := by
    unfold endpointOf
    rw [if_neg (by simp [hnot bmaT (by decide)]),
      if_neg (by simp [hnot bmasT (by decide)]),
      if_neg (by simp [hnot ws2pT (by decide)]),
      if_neg (by simp [hnot escoreT (by decide)]),
      if_neg (by simp [hnot esuserT (by decide)]),
      if_neg (by simp [hnot essubT (by decide)])]
  cases hps : pySplit (T ++ r) with
  | nil => exact absurd hps (pySplit_head_ne T r hTnoWS hTne)
  | cons a ps =>
    refine ⟨a, ps, ?_⟩
    rw [hend]
    unfold unknownFromInline
    rw [hps]

theorem c10_tag_needs_space_witness :
    ∃ a ps, endpointOf (ws2pT ++ []) = .ok (.unknown a ps) :=
  c10_tag_needs_space ws2pT (by decide) [] (Or.inl rfl)

theorem bmaFromInline_shape {line : Str} {e : Endpoint} (h : bmaFromInline line = .ok e) :
    ∃ s v4 v6 p, e = .bma s v4 v6 p := by
  unfold bmaFromInline at h
  split at h
  · split at h
    · split at h
      · injection h with h2
        exact ⟨_, _, _, _, h2.symm⟩
      · exact absurd h (by simp)
    · exact absurd h (by simp)
  · exact absurd h (by simp)

theorem bmasFromInline_shape {line : Str} {e : Endpoint} (h : bmasFromInline line = .ok e) :
    ∃ s v4 v6 p pa, e = .bmas s v4 v6 p pa := by
  unfold bmasFromInline at h
  split at h
  · split at h
    · split at h
      · injection h with h2
        exact ⟨_, _, _, _, _, h2.symm⟩
      · exact absurd h (by simp)
    · exact absurd h (by simp)
  · exact absurd h (by simp)

theorem ws2pFromInline_shape {line : Str} {e : Endpoint} (h : ws2pFromInline line = .ok e) :
    ∃ id srv p pa, e = .ws2p id srv p pa := by
  unfold ws2pFromInline at h
  split at h
  · split at h
    · split at h
      · split at h
        · split at h
          · injection h with h2
            exact ⟨_, _, _, _, h2.symm⟩
          · split at h
            · exact absurd h (by simp)
            · exact absurd h (by simp)
        · exact absurd h (by simp)
      · split at h
        · split at h
          · injection h with h2
            exact ⟨_, _, _, _, h2.symm⟩
          · split at h
            · exact absurd h (by simp)
            · exact absurd h (by simp)
        · exact absurd h (by simp)
      · exact absurd h (by simp)
    · exact absurd h (by simp)
  · exact absurd h (by simp)

theorem escoreFromInline_shape {line : Str} {e : Endpoint} (h : escoreFromInline line = .ok e) :
    ∃ srv p, e = .escore srv p := by
  unfold escoreFromInline at h
  split at h
  · split at h
    · split at h
      · split at h
        · injection h with h2
          exact ⟨_, _, h2.symm⟩
        · exact absurd h (by simp)
      · exact absurd h (by simp)
    · exact absurd h (by simp)
  · exact absurd h (by simp)

theorem esuserFromInline_shape {line : Str} {e : Endpoint} (h : esuserFromInline line = .ok e) :
    ∃ srv p, e = .esuser srv p := by
  unfold esuserFromInline at h
  split at h
  · split at h
    · split at h
      · split at h
        · injection h with h2
          exact ⟨_, _, h2.symm⟩
        · exact absurd h (by simp)
      · exact absurd h (by simp)
    · exact absurd h (by simp)
  · exact absurd h (by simp)

theorem essubFromInline_shape {line : Str} {e : Endpoint} (h : essubFromInline line = .ok e) :
    ∃ srv p, e = .essub srv p := by
  unfold essubFromInline at h
  split at h
  · split at h
    · split at h
      · split at h
        · injection h with h2
          exact ⟨_, _, h2.symm⟩
        · exact absurd h (by simp)
      · exact absurd h (by simp)
    · exact absurd h (by simp)
  · exact absurd h (by simp)

theorem tags_unique (T2 T3 : Str) (h2 : T2 ∈ MANAGED_TAGS) (h3 : T3 ∈ MANAGED_TAGS)
    (s : Str) (l2 : leadsWith (T2 ++ [' ']) s = true) (l3 : leadsWith (T3 ++ [' ']) s = true) :
    T2 = T3 := by
  rcases lw_comparable _ _ s l2 l3 with hc | hc <;>
    fin_cases h2 <;> fin_cases h3 <;>
      first
        | rfl
        | exact absurd hc (by decide)

/-- C7: registry dispatch matches the leading tag exactly: whenever the
factory returns a known-variant value, the input line starts with that
variant's tag followed by a space, and no other managed tag followed by a
space heads the same line — in particular an `ES_CORE_API` line never
resolves to the `ES_USER_API` variant or vice versa. -/
theorem c7_tag_exact (s : Str) (e : Endpoint) (h : endpointOf s = .ok e) (T : Str)
    (hT : variantTag e = some T) :
    leadsWith (T ++ [' ']) s = true ∧
      ∀ T2 ∈ MANAGED_TAGS, leadsWith (T2 ++ [' ']) s = true → T2 = T := by
  unfold endpointOf at h
  by_cases c1 : leadsWith (bmaT ++ [' ']) s = true
  · rw [if_pos c1] at h
    obtain ⟨a, b, c, p, rfl⟩ := bmaFromInline_shape h
    simp only [variantTag, Option.some.injEq] at hT
    subst hT
    exact ⟨c1, fun T2 hT2 l2 => tags_unique T2 bmaT hT2 (by decide) s l2 c1⟩
  · rw [if_neg c1] at h
    by_cases c2 : leadsWith (bmasT ++ [' ']) s = true
    · rw [if_pos c2] at h
      obtain ⟨a, b, c, p, pa, rfl⟩ := bmasFromInline_shape h
      simp only [variantTag, Option.some.injEq] at hT
      subst hT
      exact ⟨c2, fun T2 hT2 l2 => tags_unique T2 bmasT hT2 (by decide) s l2 c2⟩
    · rw [if_neg c2] at h
      by_cases c3 : leadsWith (ws2pT ++ [' ']) s = true
      · rw [if_pos c3] at h
        obtain ⟨id, srv, p, pa, rfl⟩ := ws2pFromInline_shape h
        simp only [variantTag, Option.some.injEq] at hT
        subst hT
        exact ⟨c3, fun T2 hT2 l2 => tags_unique T2 ws2pT hT2 (by decide) s l2 c3⟩
      · rw [if_neg c3] at h
        by_cases c4 : leadsWith (escoreT ++ [' ']) s = true
        · rw [if_pos c4] at h
          obtain ⟨srv, p, rfl⟩ := escoreFromInline_shape h
          simp only [variantTag, Option.some.injEq] at hT
          subst hT
          exact ⟨c4, fun T2 hT2 l2 => tags_unique T2 escoreT hT2 (by decide) s l2 c4⟩
        · rw [if_neg c4] at h
          by_cases c5 : leadsWith (esuserT ++ [' ']) s = true
          · rw [if_pos c5] at h
            obtain ⟨srv, p, rfl⟩ := esuserFromInline_shape h
            simp only [variantTag, Option.some.injEq] at hT
            subst hT
            exact ⟨c5, fun T2 hT2 l2 => tags_unique T2 esuserT hT2 (by decide) s l2 c5⟩
          · rw [if_neg c5] at h
            by_cases c6 : leadsWith (essubT ++ [' ']) s = true
            · rw [if_pos c6] at h
              obtain ⟨srv, p, rfl⟩ := essubFromInline_shape h
              simp only [variantTag, Option.some.injEq] at hT
              subst hT
              exact ⟨c6, fun T2 hT2 l2 => tags_unique T2 essubT hT2 (by decide) s l2 c6⟩
            · rw [if_neg c6] at h
              unfold unknownFromInline at h
              split at h
              · exact absurd h (by simp)
              · injection h with h2
                rw [← h2] at hT
                simp [variantTag] at hT

theorem c7_tag_exact_witness :
    leadsWith (escoreT ++ [' ']) "ES_CORE_API gtest.net 443".toList = true :=
  (c7_tag_exact "ES_CORE_API gtest.net 443".toList (.escore "gtest.net".toList 443)
    (by decide) escoreT rfl).1

theorem splitChar_linesJoin (sep : Char) (ls : List Str) (h : ∀ l ∈ ls, sep ∉ l) :
    splitChar sep (linesJoin sep ls) = ls ++ [[]] := by
  induction ls with
  | nil => rfl
  | cons l ls ih =>
    simp only [linesJoin]
    rw [splitChar_append sep l _ (h l (List.mem_cons_self l ls)),
      ih (fun q hq => h q (List.mem_cons_of_mem l hq))]
    rfl

theorem dropLabel_append (lab x : Str) : dropLabel lab (lab ++ x) = some x := by
  unfold dropLabel
  rw [if_pos (lw_self_append lab x)]
  rw [List.drop_left]

theorem dropLabel_some {lab l x : Str} (h : dropLabel lab l = some x) :
    x = l.drop lab.length := by
  unfold dropLabel at h
  split at h
  · injection h with h2
    exact h2.symm
  · exact absurd h (by simp)

theorem portB_pyNatStr (v : Nat) : portB (pyNatStr v) = true := by
  unfold pyNatStr
  by_cases h : v = 0
  · rw [if_pos h]
    decide
  · rw [if_neg h]
    exact portB_natChars v h

theorem takeWhile_app_all (p : Str → Bool) (A B : List Str) (hA : ∀ l ∈ A, p l = true) :
    (A ++ B).takeWhile p = A ++ B.takeWhile p := by
  induction A with
  | nil => rfl
  | cons a A ih =>
    rw [List.cons_append, List.takeWhile_cons, if_pos (hA a (List.mem_cons_self a A)),
      ih (fun l hl => hA l (List.mem_cons_of_mem a hl)), List.cons_append]

theorem dropWhile_app_all (p : Str → Bool) (A B : List Str) (hA : ∀ l ∈ A, p l = true) :
    (A ++ B).dropWhile p = B.dropWhile p := by
  induction A with
  | nil => rfl
  | cons a A ih =>
    rw [List.cons_append, List.dropWhile_cons, if_pos (hA a (List.mem_cons_self a A)),
      ih (fun l hl => hA l (List.mem_cons_of_mem a hl))]

theorem takeWhile_not_sig (B : List Str) (hB : B.all sigB = true) :
    B.takeWhile (fun l => !sigB l) = [] := by
  cases B with
  | nil => rfl
  | cons b bs =>
    have hb := (List.all_eq_true.mp hB) b (List.mem_cons_self b bs)
    rw [List.takeWhile_cons, if_neg (by simp [hb])]

theorem dropWhile_not_sig (B : List Str) (hB : B.all sigB = true) :
    B.dropWhile (fun l => !sigB l) = B := by
  cases B with
  | nil => rfl
  | cons b bs =>
    have hb := (List.all_eq_true.mp hB) b (List.mem_cons_self b bs)
    rw [List.dropWhile_cons, if_neg (by simp [hb])]

theorem mapExcept_roundtrip (eps : List Endpoint) (h : ∀ e ∈ eps, wfE e = true) :
    mapExcept endpointOf (eps.map Endpoint.inline) = .ok eps := by
  induction eps with
  | nil => rfl
  | cons e eps ih =>
    simp only [List.map_cons, mapExcept]
    rw [ep_roundtrip e (h e (List.mem_cons_self e eps)),
      ih (fun q hq => h q (List.mem_cons_of_mem e hq))]

theorem not_mem_joinTok (c : Char) (hc : c ≠ ' ') (ts : List Str)
    (h : ∀ t ∈ ts, c ∉ t) : c ∉ joinTok ts := by
  induction ts with
  | nil => simp [joinTok]
  | cons t ts ih =>
    simp only [joinTok, List.mem_cons, List.mem_append]
    rintro (h1 | h1 | h1)
    · exact hc h1
    · exact h t (List.mem_cons_self t ts) h1
    · exact ih (fun q hq => h q (List.mem_cons_of_mem t hq)) h1

theorem not_mem_interSp (c : Char) (hc : c ≠ ' ') (ts : List Str)
    (h : ∀ t ∈ ts, c ∉ t) : c ∉ interSp ts := by
  induction ts with
  | nil => simp [interSp]
  | cons t ts ih =>
    cases ts with
    | nil => exact h t (List.mem_cons_self t [])
    | cons u us =>
      rw [show interSp (t :: u :: us) = t ++ ' ' :: interSp (u :: us) from rfl]
      simp only [List.mem_append, List.mem_cons]
      rintro (h1 | h1 | h1)
      · exact h t (List.mem_cons_self t (u :: us)) h1
      · exact hc h1
      · exact ih (fun q hq => h q (List.mem_cons_of_mem t hq)) h1

theorem optTok_noWS {cl : Str → Bool} {s : Option Str} (h : optWfB cl s = true)
    (hcl : ∀ t, cl t = true → noWS t = true) : ∀ t ∈ optTok s, noWS t = true := by
  intro t ht
  cases s with
  | none => simp [optTok] at ht
  | some u =>
    rw [optTok_optL h] at ht
    simp only [optL, List.mem_singleton] at ht
    subst ht
    exact hcl t (optWfB_class h t rfl)

theorem strTok_noWS {t : Str} (h : noWS t = true) : ∀ u ∈ strTok t, noWS u = true := by
  intro u hu
  unfold strTok at hu
  split at hu
  · simp at hu
  · simp only [List.mem_singleton] at hu
    subst hu
    exact h

theorem natTok_noWS (p : Nat) : ∀ t ∈ natTok p, noWS t = true := by
  intro t ht
  unfold natTok at ht
  split at ht
  · simp at ht
  · simp only [List.mem_singleton] at ht
    subst ht
    exact portB_noWS _ (by
      rename_i hp
      exact portB_natChars p hp)

theorem all_noWS_append (A B : List Str) (hA : ∀ t ∈ A, noWS t = true)
    (hB : ∀ t ∈ B, noWS t = true) : ∀ t ∈ A ++ B, noWS t = true := by
  intro t ht
  rcases List.mem_append.mp ht with h1 | h1
  · exact hA t h1
  · exact hB t h1

theorem wf_inline_nl (e : Endpoint) (h : wfE e = true) : '\n' ∉ Endpoint.inline e := by
  have hnl : ('\n' : Char) ≠ ' ' := by decide
  cases e with
  | bma s v4 v6 p =>
    simp only [wfE, Bool.and_eq_true, bne_iff_ne, ne_eq] at h
    obtain ⟨⟨⟨hs, h4⟩, h6⟩, -⟩ := h
    have htoks : ∀ t ∈ optTok s ++ optTok v4 ++ optTok v6 ++ natTok p, noWS t = true :=
      all_noWS_append _ _
        (all_noWS_append _ _
          (all_noWS_append _ _ (optTok_noWS hs hostB_noWS) (optTok_noWS h4 ipv4B_noWS))
          (optTok_noWS h6 ipv6B_noWS))
        (natTok_noWS p)
    show '\n' ∉ bmaT ++ joinTok (optTok s ++ optTok v4 ++ optTok v6 ++ natTok p)
    intro hmem
    rcases List.mem_append.mp hmem with h1 | h1
    · exact absurd h1 (by decide)
    · exact not_mem_joinTok '\n' hnl _
        (fun t ht => noWS_nl_not_mem t (htoks t ht)) h1
  | bmas s v4 v6 p pa =>
    simp only [wfE, Bool.and_eq_true, bne_iff_ne, ne_eq, Bool.or_eq_true] at h
    obtain ⟨⟨⟨⟨hs, h4⟩, h6⟩, -⟩, hpa⟩ := h
    have hpaWS : ∀ t ∈ strTok pa, noWS t = true := by
      rcases hpa with h1 | h1
      · intro t ht
        unfold strTok at ht
        rw [if_pos (by simpa [List.isEmpty_iff] using h1)] at ht
        simp at ht
      · exact strTok_noWS (pathB_noWS pa h1)
    have htoks : ∀ t ∈ optTok s ++ optTok v4 ++ optTok v6 ++ natTok p ++ strTok pa,
        noWS t = true :=
      all_noWS_append _ _
        (all_noWS_append _ _
          (all_noWS_append _ _
            (all_noWS_append _ _ (optTok_noWS hs hostB_noWS) (optTok_noWS h4 ipv4B_noWS))
            (optTok_noWS h6 ipv6B_noWS))
          (natTok_noWS p))
        hpaWS
    show '\n' ∉ bmasT ++ ' ' :: interSp (optTok s ++ optTok v4 ++ optTok v6 ++ natTok p ++ strTok pa)
    intro hmem
    rcases List.mem_append.mp hmem with h1 | h1
    · exact absurd h1 (by decide)
    · rcases List.mem_cons.mp h1 with h2 | h2
      · exact hnl h2
      · exact not_mem_interSp '\n' hnl _
          (fun t ht => noWS_nl_not_mem t (htoks t ht)) h2
  | ws2p id srv p pa =>
    simp only [wfE, Bool.and_eq_true, bne_iff_ne, ne_eq, Bool.or_eq_true] at h
    obtain ⟨⟨⟨hid, hsrv⟩, -⟩, hpa⟩ := h
    have hsrvWS : noWS srv = true := by
      rcases hsrv with h1 | h1
      · exact hostB_noWS srv h1
      · exact ipv4B_noWS srv h1
    have hpaWS : ∀ t ∈ strTok pa, noWS t = true := by
      rcases hpa with h1 | h1
      · intro t ht
        unfold strTok at ht
        rw [if_pos (by simpa [List.isEmpty_iff] using h1)] at ht
        simp at ht
      · exact strTok_noWS (pathB_noWS pa h1)
    have htoks : ∀ t ∈ strTok id ++ strTok srv ++ natTok p ++ strTok pa, noWS t = true :=
      all_noWS_append _ _
        (all_noWS_append _ _
          (all_noWS_append _ _ (strTok_noWS (ws2pidB_noWS id hid)) (strTok_noWS hsrvWS))
          (natTok_noWS p))
        hpaWS
    show '\n' ∉ ws2pT ++ ' ' :: interSp (strTok id ++ strTok srv ++ natTok p ++ strTok pa)
    intro hmem
    rcases List.mem_append.mp hmem with h1 | h1
    · exact absurd h1 (by decide)
    · rcases List.mem_cons.mp h1 with h2 | h2
      · exact hnl h2
      · exact not_mem_interSp '\n' hnl _
          (fun t ht => noWS_nl_not_mem t (htoks t ht)) h2
  | escore srv p =>
    simp only [wfE, Bool.and_eq_true, bne_iff_ne, ne_eq, Bool.or_eq_true] at h
    obtain ⟨hsrv, -⟩ := h
    have hsrvWS : noWS srv = true := by
      rcases hsrv with h1 | h1
      · exact hostB_noWS srv h1
      · exact ipv4B_noWS srv h1
    have htoks : ∀ t ∈ strTok srv ++ natTok p, noWS t = true :=
      all_noWS_append _ _ (strTok_noWS hsrvWS) (natTok_noWS p)
    show '\n' ∉ escoreT ++ ' ' :: interSp (strTok srv ++ natTok p)
    intro hmem
    rcases List.mem_append.mp hmem with h1 | h1
    · exact absurd h1 (by decide)
    · rcases List.mem_cons.mp h1 with h2 | h2
      · exact hnl h2
      · exact not_mem_interSp '\n' hnl _
          (fun t ht => noWS_nl_not_mem t (htoks t ht)) h2
  | esuser srv p =>
    simp only [wfE, Bool.and_eq_true, bne_iff_ne, ne_eq, Bool.or_eq_true] at h
    obtain ⟨hsrv, -⟩ := h
    have hsrvWS : noWS srv = true := by
      rcases hsrv with h1 | h1
      · exact hostB_noWS srv h1
      · exact ipv4B_noWS srv h1
    have htoks : ∀ t ∈ strTok srv ++ natTok p, noWS t = true :=
      all_noWS_append _ _ (strTok_noWS hsrvWS) (natTok_noWS p)
    show '\n' ∉ esuserT ++ ' ' :: interSp (strTok srv ++ natTok p)
    intro hmem
    rcases List.mem_append.mp hmem with h1 | h1
    · exact absurd h1 (by decide)
    · rcases List.mem_cons.mp h1 with h2 | h2
      · exact hnl h2
      · exact not_mem_interSp '\n' hnl _
          (fun t ht => noWS_nl_not_mem t (htoks t ht)) h2
  | essub srv p =>
    simp only [wfE, Bool.and_eq_true, bne_iff_ne, ne_eq, Bool.or_eq_true] at h
    obtain ⟨hsrv, -⟩ := h
    have hsrvWS : noWS srv = true := by
      rcases hsrv with h1 | h1
      · exact hostB_noWS srv h1
      · exact ipv4B_noWS srv h1
    have htoks : ∀ t ∈ strTok srv ++ natTok p, noWS t = true :=
      all_noWS_append _ _ (strTok_noWS hsrvWS) (natTok_noWS p)
    show '\n' ∉ essubT ++ ' ' :: interSp (strTok srv ++ natTok p)
    intro hmem
    rcases List.mem_append.mp hmem with h1 | h1
    · exact absurd h1 (by decide)
    · rcases List.mem_cons.mp h1 with h2 | h2
      · exact hnl h2
      · exact not_mem_interSp '\n' hnl _
          (fun t ht => noWS_nl_not_mem t (htoks t ht)) h2
  | unknown a ps =>
    simp only [wfE, Bool.and_eq_true] at h
    obtain ⟨⟨⟨-, haWS⟩, -⟩, hps⟩ := h
    show '\n' ∉ a ++ joinTok ps
    intro hmem
    rcases List.mem_append.mp hmem with h1 | h1
    · exact noWS_nl_not_mem a haWS h1
    · refine not_mem_joinTok '\n' hnl ps ?_ h1
      intro q hq
      have hq2 := (List.all_eq_true.mp hps) q hq
      simp only [Bool.and_eq_true] at hq2
      exact noWS_nl_not_mem q hq2.2

theorem not_mem_drop {c : Char} {l : Str} (h : c ∉ l) (n : Nat) : c ∉ l.drop n :=
  fun hmem => h (List.mem_of_mem_drop hmem)

theorem parseBody_sigs {rest : List Str} {eps : List Endpoint} {sigs : List Str}
    (h : parseBody rest = .ok (eps, sigs)) : sigs.all sigB = true := by
  unfold parseBody at h
  split at h
  · unfold parseBody2 at h
    split at h
    · split at h
      · rename_i hall
        injection h with h2
        have hsnd := congrArg Prod.snd h2
        simp only at hsnd
        rw [← hsnd]
        exact hall
      · exact absurd h (by simp)
    · exact absurd h (by simp)
  · exact absurd h (by simp)

theorem parse_fields {raw : Str} {d : PeerDoc} (h : parseSigned raw = .ok d) :
    d.signatures.all sigB = true ∧ '\n' ∉ d.currency ∧ '\n' ∉ d.pubkey ∧ '\n' ∉ d.blockid := by
  unfold parseSigned parseLines at h
  split at h
  · rename_i l1 l2 l3 l4 l5 l6 rest heq
    split at h
    · rename_i vs cur pk blk hv hc hp2 hb
      unfold parseAfterHeader at h
      split at h
      · split at h
        · rename_i eps sigs heqB
          injection h with h2
          subst h2
          have hmem3 : l3 ∈ splitChar '\n' raw := by
            rw [heq]
            simp
          have hmem4 : l4 ∈ splitChar '\n' raw := by
            rw [heq]
            simp
          have hmem5 : l5 ∈ splitChar '\n' raw := by
            rw [heq]
            simp
          refine ⟨parseBody_sigs heqB, ?_, ?_, ?_⟩
          · rw [show (PeerDoc.mk (charsToNat vs) cur pk blk eps sigs).currency = cur from rfl,
              dropLabel_some hc]
            exact not_mem_drop (splitChar_mem_not_sep '\n' raw l3 hmem3) _
          · rw [show (PeerDoc.mk (charsToNat vs) cur pk blk eps sigs).pubkey = pk from rfl,
              dropLabel_some hp2]
            exact not_mem_drop (splitChar_mem_not_sep '\n' raw l4 hmem4) _
          · rw [show (PeerDoc.mk (charsToNat vs) cur pk blk eps sigs).blockid = blk from rfl,
              dropLabel_some hb]
            exact not_mem_drop (splitChar_mem_not_sep '\n' raw l5 hmem5) _
        · exact absurd h (by simp)
      · exact absurd h (by simp)
    · exact absurd h (by simp)
  · exact absurd h (by simp)

theorem parseBody_eval (epLines sigs : List Str) (eps : List Endpoint)
    (hepl : mapExcept endpointOf epLines = .ok eps)
    (hnosig : ∀ l ∈ epLines, sigB l = false)
    (hsig : sigs.all sigB = true) :
    parseBody (epLines ++ (sigs ++ [[]])) = .ok (eps, sigs) := by
  have hrev : (epLines ++ (sigs ++ [[]])).reverse
      = [] :: (sigs.reverse ++ epLines.reverse) := by
    simp
  unfold parseBody
  rw [hrev]
  show parseBody2 (sigs.reverse ++ epLines.reverse).reverse = .ok (eps, sigs)
  have hb2 : (sigs.reverse ++ epLines.reverse).reverse = epLines ++ sigs := by
    simp
  rw [hb2]
  unfold parseBody2
  rw [takeWhile_app_all _ epLines sigs (fun l hl => by simp [hnosig l hl]),
    takeWhile_not_sig sigs hsig, List.append_nil, hepl,
    dropWhile_app_all _ epLines sigs (fun l hl => by simp [hnosig l hl]),
    dropWhile_not_sig sigs hsig]
  show (if sigs.all sigB = true
      then (Except.ok (eps, sigs) : Except PErr (List Endpoint × List Str))
      else Except.error PErr.malformed) = Except.ok (eps, sigs)
  rw [if_pos hsig]

theorem c2_parse_render {v : Nat} {cur pk blk : Str} {eps : List Endpoint} {sigs : List Str}
    (hep : ∀ e ∈ eps, wfE e = true ∧ sigB (Endpoint.inline e) = false)
    (hsig : sigs.all sigB = true)
    (hcur : '\n' ∉ cur) (hpk : '\n' ∉ pk) (hblk : '\n' ∉ blk) :
    parseSigned (renderSigned ⟨v, cur, pk, blk, eps, sigs⟩)
      = .ok ⟨v, cur, pk, blk, eps, sigs⟩ := by
  have hlines : ∀ l ∈ ([verLab ++ pyNatStr v, typeLine, curLab ++ cur, pkLab ++ pk,
      blkLab ++ blk, epMark] ++ eps.map Endpoint.inline ++ sigs), '\n' ∉ l := by
    intro l hl
    rcases List.mem_append.mp hl with h1 | h1
    · rcases List.mem_append.mp h1 with h2 | h2
      · simp only [List.mem_cons, List.not_mem_nil, or_false] at h2
        rcases h2 with rfl | rfl | rfl | rfl | rfl | rfl
        · intro hm
          rcases List.mem_append.mp hm with h3 | h3
          · exact absurd h3 (by decide)
          · exact noWS_nl_not_mem _ (portB_noWS _ (portB_pyNatStr v)) h3
        · decide
        · intro hm
          rcases List.mem_append.mp hm with h3 | h3
          · exact absurd h3 (by decide)
          · exact hcur h3
        · intro hm
          rcases List.mem_append.mp hm with h3 | h3
          · exact absurd h3 (by decide)
          · exact hpk h3
        · intro hm
          rcases List.mem_append.mp hm with h3 | h3
          · exact absurd h3 (by decide)
          · exact hblk h3
        · decide
      · obtain ⟨e, he, rfl⟩ := List.mem_map.mp h2
        exact wf_inline_nl e (hep e he).1
    · exact noWS_nl_not_mem l (sigB_noWS l ((List.all_eq_true.mp hsig) l h1))
  have hsplitAll := splitChar_linesJoin '\n' _ hlines
  have hform : (([verLab ++ pyNatStr v, typeLine, curLab ++ cur, pkLab ++ pk,
        blkLab ++ blk, epMark] ++ eps.map Endpoint.inline ++ sigs) ++ [[]] : List Str)
      = (verLab ++ pyNatStr v) :: typeLine :: (curLab ++ cur) :: (pkLab ++ pk)
        :: (blkLab ++ blk) :: epMark :: (eps.map Endpoint.inline ++ (sigs ++ [[]])) := by
    simp
  have hbody : parseBody (eps.map Endpoint.inline ++ (sigs ++ [[]])) = .ok (eps, sigs) := by
    refine parseBody_eval _ sigs eps ?_ ?_ hsig
    · exact mapExcept_roundtrip eps (fun e he => (hep e he).1)
    · intro l hl
      obtain ⟨e, he, rfl⟩ := List.mem_map.mp hl
      exact (hep e he).2
  show parseLines (splitChar '\n' (renderSigned ⟨v, cur, pk, blk, eps, sigs⟩)) = _
  rw [show renderSigned ⟨v, cur, pk, blk, eps, sigs⟩
      = linesJoin '\n' ([verLab ++ pyNatStr v, typeLine, curLab ++ cur, pkLab ++ pk,
          blkLab ++ blk, epMark] ++ eps.map Endpoint.inline ++ sigs) from rfl]
  rw [hsplitAll, hform]
  simp only [parseLines]
  rw [dropLabel_append verLab (pyNatStr v), dropLabel_append curLab cur,
    dropLabel_append pkLab pk, dropLabel_append blkLab blk]
  show parseAfterHeader (pyNatStr v) cur pk blk typeLine epMark
      (eps.map Endpoint.inline ++ (sigs ++ [[]]))
    = Except.ok ⟨v, cur, pk, blk, eps, sigs⟩
  unfold parseAfterHeader
  rw [if_pos ⟨rfl, rfl, portB_pyNatStr v⟩, hbody]
  simp [charsToNat_pyNatStr]

/-- C2: the document round trip as claimed — for every successfully parsed
document, unconditionally — is false on the code: the endpoint registry can
produce an Unknown endpoint whose normalized rendering re-dispatches to a
known tag's grammar.  A `WS2P<tab>x 1` line is not matched by
`startswith("WS2P ")` and parses as `Unknown("WS2P", ["x", "1"])`; rendering
joins the tokens with single spaces into `WS2P x 1`, which the re-parse hands
to the WS2P grammar, and that grammar rejects it, so the re-parse of the
rendered document fails instead of returning an equal document. -/
theorem c2_cex :
    parseSigned ("Version: 1\nType: Peer\nCurrency: c\nPublicKey: k\nBlock: 8-A\n"
          ++ "Endpoints:\nWS2P\tx 1\nsig==\n").toList
        = .ok ⟨1, "c".toList, "k".toList, "8-A".toList,
            [.unknown "WS2P".toList ["x".toList, "1".toList]], ["sig==".toList]⟩ ∧
      parseSigned (renderSigned ⟨1, "c".toList, "k".toList, "8-A".toList,
            [.unknown "WS2P".toList ["x".toList, "1".toList]], ["sig==".toList]⟩)
        = .error .malformed := by
  refine ⟨by decide, by decide⟩

/-- C2 (amended): for every successfully parsed signed peer document whose
parsed endpoints are well-formed for their variant and whose re-rendered
endpoint lines are not signature-shaped, re-parsing the rendered document
yields the document back field-by-field, preserving endpoint variant identity
and order and signature identity and order.  The sample document (two
`BASIC_MERKLED_API` lines, one `OTHER_PROTOCOL` line, one signature)
satisfies this: it parses to 3 endpoints (known, known, unknown) and 1
signature and re-renders to an equivalent document. -/
theorem c2_round_trip (raw : Str) (d : PeerDoc) (h : parseSigned raw = .ok d)
    (hep : d.endpoints.all (fun e => wfE e && !sigB (Endpoint.inline e)) = true) :
    parseSigned (renderSigned d) = .ok d := by
  obtain ⟨hsig, hcur, hpk, hblk⟩ := parse_fields h
  obtain ⟨v, cur, pk, blk, eps, sigs⟩ := d
  refine c2_parse_render ?_ hsig hcur hpk hblk
  intro e he
  have h2 := (List.all_eq_true.mp hep) e he
  simp only [Bool.and_eq_true, Bool.not_eq_true'] at h2
  exact h2

theorem c2_round_trip_witness :
    parseSigned sampleRaw = .ok sampleDoc ∧
      sampleDoc.endpoints.length = 3 ∧ sampleDoc.signatures.length = 1 ∧
      parseSigned (renderSigned sampleDoc) = .ok sampleDoc :=
  ⟨by decide, by decide, by decide,
    c2_round_trip sampleRaw sampleDoc (by decide) (by decide)⟩

